import Mathlib

/-!
Verification of the `iso8601` Go package (ISO 8601 durations).

Shallow embedding conventions:
* Go `int` (64-bit) is modelled as `ℤ`; where Go checks or wraps at the
  int64 boundary the model does so explicitly (`wrap64`, range checks).
* Go `float64` values are modelled as exact rationals `ℚ`.  All executable
  definitions build rationals with `mkRat` / numerator-denominator
  arithmetic so that the kernel can evaluate them.
* Go `time.Time` is modelled as an absolute count of nanoseconds since the
  Unix epoch in the UTC location (`ℤ`); `time.Duration` as an int64
  nanosecond count (ℤ values wrapped with `wrap64`).
* Strings are modelled as `List Char`.
-/

set_option maxRecDepth 40000

namespace Iso8601

/-- Model of the Go struct `Duration` (src/iso8601.go lines 17-26): seven
signed numeric fields; `TS` is the float64 seconds field, modelled as an
exact rational. -/
structure Duration where
  Y : ℤ
  M : ℤ
  W : ℤ
  D : ℤ
  TH : ℤ
  TM : ℤ
  TS : ℚ
  deriving DecidableEq, Repr

/-- Go's zero value `Duration{}`. -/
def Duration.zero : Duration := ⟨0, 0, 0, 0, 0, 0, 0⟩

instance : Inhabited Duration := ⟨Duration.zero⟩

/-- Model of `Duration.IsZero` (lines 97-99). -/
def Duration.IsZero (d : Duration) : Bool :=
  decide (d.Y = 0 ∧ d.M = 0 ∧ d.W = 0 ∧ d.D = 0 ∧ d.TH = 0 ∧ d.TM = 0 ∧ d.TS = 0)

/-- Model of `Duration.IsNegative` (lines 102-104). -/
def Duration.IsNegative (d : Duration) : Bool :=
  decide (d.Y < 0 ∨ d.M < 0 ∨ d.W < 0 ∨ d.D < 0 ∨ d.TH < 0 ∨ d.TM < 0 ∨ d.TS < 0)

/-- Model of `Duration.Negate` (lines 107-117). -/
def Duration.Negate (d : Duration) : Duration :=
  ⟨-d.Y, -d.M, -d.W, -d.D, -d.TH, -d.TM, -d.TS⟩

/-- Model of `Duration.HasTimePart` (lines 120-122). -/
def Duration.HasTimePart (d : Duration) : Bool :=
  decide (d.TH ≠ 0 ∨ d.TM ≠ 0 ∨ d.TS ≠ 0)

/-- Model of `Duration.Add` (lines 235-245): component-wise sum. -/
def Duration.Add (d other : Duration) : Duration :=
  ⟨d.Y + other.Y, d.M + other.M, d.W + other.W, d.D + other.D,
   d.TH + other.TH, d.TM + other.TM, d.TS + other.TS⟩

/-- Model of `Duration.Subtract` (lines 250-260): component-wise difference. -/
def Duration.Subtract (d other : Duration) : Duration :=
  ⟨d.Y - other.Y, d.M - other.M, d.W - other.W, d.D - other.D,
   d.TH - other.TH, d.TM - other.TM, d.TS - other.TS⟩

/-- Time-only comparison tail of `Duration.LessThan` (lines 304-311): the
straight-line code after the date block, reached either when no date
component is non-zero or when all four date fields compare equal. -/
def Duration.lessThanTime (d other : Duration) : Bool :=
  if d.TH ≠ other.TH then decide (d.TH < other.TH)
  else if d.TM ≠ other.TM then decide (d.TM < other.TM)
  else decide (d.TS < other.TS)

/-- Model of `Duration.LessThan` (lines 286-312).  The date block is entered
when either operand has a non-zero date component; each early `return`
inside it is a branch here, and falling off the block continues with the
time comparison. -/
def Duration.LessThan (d other : Duration) : Bool :=
  if d.Y ≠ 0 ∨ d.M ≠ 0 ∨ d.W ≠ 0 ∨ d.D ≠ 0 ∨
      other.Y ≠ 0 ∨ other.M ≠ 0 ∨ other.W ≠ 0 ∨ other.D ≠ 0 then
    if d.Y ≠ other.Y then decide (d.Y < other.Y)
    else if d.M ≠ other.M then decide (d.M < other.M)
    else if d.W ≠ other.W then decide (d.W < other.W)
    else if d.D ≠ other.D then decide (d.D < other.D)
    else d.lessThanTime other
  else d.lessThanTime other

/-! ## Parser -/

/-- Errors produced by `ParseISO8601`: `badFormat` is the regex mismatch
("could not parse duration string"); `outOfRange` is a numeric conversion
range error from `strconv.Atoi` / `strconv.ParseFloat`. -/
inductive ParseErr where
  | badFormat : ParseErr
  | outOfRange : ParseErr
  deriving DecidableEq, Repr

/-- Value of a non-empty decimal digit string, as `strconv` reads it
(most significant digit first). -/
def digitsToNat (ds : List Char) : ℕ :=
  ds.foldl (fun a c => 10 * a + (c.toNat - 48)) 0

/-- The capture groups of the duration regex (line 28-30): for each named
group the matched digit run, or `none` when the group did not participate;
the `second` group is split into its integer digits and (possibly empty)
fraction digits. -/
structure RawGroups where
  year : Option (List Char)
  month : Option (List Char)
  week : Option (List Char)
  day : Option (List Char)
  hour : Option (List Char)
  minute : Option (List Char)
  second : Option (List Char × List Char)
  deriving DecidableEq, Repr

/-- Match one optional `((\d+)U)?` group of the regex: consume a maximal
non-empty digit run followed by the unit letter `u`, or consume nothing. -/
def pGroup (u : Char) (s : List Char) : Option (List Char) × List Char :=
  let ds := s.takeWhile Char.isDigit
  let rest := s.dropWhile Char.isDigit
  match ds, rest with
  | [], _ => (none, s)
  | _ :: _, c :: rest2 => if c = u then (some ds, rest2) else (none, s)
  | _ :: _, [] => (none, s)

/-- Match the optional seconds group `((\d+(?:\.\d+)?)S)?` of the regex. -/
def pSecond (s : List Char) : Option (List Char × List Char) × List Char :=
  let ds := s.takeWhile Char.isDigit
  let rest := s.dropWhile Char.isDigit
  match ds, rest with
  | [], _ => (none, s)
  | _ :: _, 'S' :: r2 => (some (ds, []), r2)
  | _ :: _, '.' :: r2 =>
    let fs := r2.takeWhile Char.isDigit
    let rest2 := r2.dropWhile Char.isDigit
    (match fs, rest2 with
     | [], _ => (none, s)
     | _ :: _, 'S' :: r3 => (some (ds, fs), r3)
     | _ :: _, _ => (none, s))
  | _ :: _, _ => (none, s)

/-- Match the part of the regex after the literal `P`: the four ordered
optional date groups, then an optional `T` introducing the three ordered
optional time groups, anchored at the end of the input. -/
def matchAfterP (s : List Char) : Option RawGroups :=
  let (y, s1) := pGroup 'Y' s
  let (mo, s2) := pGroup 'M' s1
  let (w, s3) := pGroup 'W' s2
  let (dd, s4) := pGroup 'D' s3
  match s4 with
  | [] => some ⟨y, mo, w, dd, none, none, none⟩
  | 'T' :: s5 =>
    let (h, s6) := pGroup 'H' s5
    let (mi, s7) := pGroup 'M' s6
    let (sec, s8) := pSecond s7
    if s8 = [] then some ⟨y, mo, w, dd, h, mi, sec⟩ else none
  | _ => none

/-- Match after the optional leading sign: the regex requires the literal
`P` next. -/
def matchP : List Char → Option RawGroups
  | 'P' :: rest => matchAfterP rest
  | _ => none

/-- Model of the anchored regex on line 28-30: an optional leading `-`,
then `P`, then the ordered optional groups.  Returns the capture groups on
a match.  The regex engine's backtracking cannot produce a match this
left-to-right maximal-digit-run scan misses: every group starts with
`\d+`, each digit run must be followed by its unit letter, and the groups
occur in a fixed order. -/
def matchDuration (s : List Char) : Option RawGroups :=
  match s with
  | '-' :: rest => matchP rest
  | _ => matchP s

/-- Model of `strconv.Atoi` on a non-empty digit run (64-bit `int`):
the value, unless it exceeds 2^63 - 1 (`ErrRange`). -/
def goAtoi (ds : List Char) : Option ℤ :=
  let n := digitsToNat ds
  if n ≤ 9223372036854775807 then some (n : ℤ) else none

/-- Exact value of the seconds literal `ip "." fp` (or plain `ip`):
what `strconv.ParseFloat` is given, as a rational. -/
def secValue (ip fp : List Char) : ℚ :=
  mkRat ((digitsToNat ip * 10 ^ fp.length + digitsToNat fp : ℕ) : ℤ) (10 ^ fp.length)

/-- Smallest value that overflows float64 to `+Inf`
(2^1024 - 2^970, the rounding boundary above the largest finite float64;
written as a literal so that it evaluates cheaply). -/
def floatOverflowBound : ℤ := 179769313486231580793728971405303415079934132710037826936173778980444968292764750946649017977587207096330286416692887910946555547851940402630657488671505820681908902000708383676273854845817711531764475730270069855571366959622842914819860834936475292719074168444365510704342711559699508093042880177904174497792

/-- Model of the range-error condition of `strconv.ParseFloat` on a
non-negative decimal literal: overflow to `+Inf` yields `ErrRange`. -/
def parseFloatRangeErr (q : ℚ) : Bool :=
  decide (((floatOverflowBound : ℤ) : ℚ) ≤ q)

/-- One integer field of the conversion loop in `ParseISO8601`
(lines 52-80): skipped if a previous iteration already returned, skipped if
the group is empty, otherwise `strconv.Atoi` then negation, writing the
field through `set`.  On a range error the Duration built so far is
returned together with the error, exactly as the Go `return d, err`. -/
def stepInt (cur : Duration × Option ParseErr) (g : Option (List Char))
    (negative : Bool) (set : Duration → ℤ → Duration) : Duration × Option ParseErr :=
  match cur.2 with
  | some _ => cur
  | none =>
    match g with
    | none => cur
    | some ds =>
      match goAtoi ds with
      | none => (cur.1, some ParseErr.outOfRange)
      | some v => (set cur.1 (if negative then -v else v), none)

/-- The seconds iteration of the conversion loop (lines 81-90):
`strconv.ParseFloat` then negation; on a range error the Duration built so
far accompanies the error. -/
def stepSec (cur : Duration × Option ParseErr) (g : Option (List Char × List Char))
    (negative : Bool) : Duration × Option ParseErr :=
  match cur.2 with
  | some _ => cur
  | none =>
    match g with
    | none => cur
    | some (ip, fp) =>
      if parseFloatRangeErr (secValue ip fp) then (cur.1, some ParseErr.outOfRange)
      else ({ cur.1 with TS := if negative then -secValue ip fp else secValue ip fp }, none)

/-- The conversion loop of `ParseISO8601` (lines 52-91): the named groups
are visited in pattern order (year, month, week, day, hour, minute,
second); integer groups go through `strconv.Atoi`, the seconds group
through `strconv.ParseFloat`, and a leading minus negates each value. -/
def fillFields (g : RawGroups) (negative : Bool) : Duration × Option ParseErr :=
  let c1 := stepInt (Duration.zero, none) g.year negative fun d v => { d with Y := v }
  let c2 := stepInt c1 g.month negative fun d v => { d with M := v }
  let c3 := stepInt c2 g.week negative fun d v => { d with W := v }
  let c4 := stepInt c3 g.day negative fun d v => { d with D := v }
  let c5 := stepInt c4 g.hour negative fun d v => { d with TH := v }
  let c6 := stepInt c5 g.minute negative fun d v => { d with TM := v }
  stepSec c6 g.second negative

/-- Model of `ParseISO8601` (lines 36-94) on a character list: match the
regex (error `badFormat` on mismatch), detect the sign from the first
character of the input, then run the conversion loop. -/
def ParseISO8601 (s : List Char) : Duration × Option ParseErr :=
  match matchDuration s with
  | none => (Duration.zero, some ParseErr.badFormat)
  | some g => fillFields g (decide (s.head? = some '-'))

/-! ## Formatter -/

/-- Two's-complement wrap of an integer into the int64 range, modelling
Go's int64 arithmetic overflow behaviour. -/
def wrap64 (n : ℤ) : ℤ := (n + 2 ^ 63) % 2 ^ 64 - 2 ^ 63

/-- Model of the template helper `abs` (lines 178-183): `if n < 0 { return -n }`,
where the negation is int64 arithmetic (so `abs minInt64 = minInt64`). -/
def absInt64 (n : ℤ) : ℤ := if n < 0 then wrap64 (-n) else n

/-- The ASCII digit character for a digit value below 10. -/
def digitChar (d : ℕ) : Char := Char.ofNat (48 + d)

/-- Big-endian decimal digits of `n` (empty for 0), fuel-based so that the
kernel evaluates it. -/
def natDigitsAux : ℕ → ℕ → List Char
  | 0, _ => []
  | fuel + 1, n => if n = 0 then [] else natDigitsAux fuel (n / 10) ++ [digitChar (n % 10)]

/-- Big-endian decimal digits of `n` (empty for 0). -/
def natDigits (n : ℕ) : List Char := natDigitsAux (n + 1) n

/-- Decimal rendering of a natural number, as Go prints integers. -/
def renderNat (n : ℕ) : List Char := if n = 0 then ['0'] else natDigits n

/-- Decimal rendering of an integer, as Go prints `int` values. -/
def renderInt (n : ℤ) : List Char :=
  if n < 0 then '-' :: renderNat n.natAbs else renderNat n.toNat

/-- Multiplicity of the prime `p` in `n` (fuel-based). -/
def pMultAux (p : ℕ) : ℕ → ℕ → ℕ
  | 0, _ => 0
  | fuel + 1, n => if 2 ≤ p ∧ n ≠ 0 ∧ n % p = 0 then pMultAux p fuel (n / p) + 1 else 0

/-- Multiplicity of the prime `p` in `n`. -/
def pMult (p n : ℕ) : ℕ := pMultAux p n n

/-- Number of decimal fraction digits of `q`: the least `k` with
`q * 10^k` integral, when the denominator is of the form `2^a * 5^b`
(always the case for float64 values). -/
def fracExp (q : ℚ) : ℕ := max (pMult 2 q.den) (pMult 5 q.den)

/-- The significand integer `|q| * 10^(fracExp q)` of a finite-decimal
rational. -/
def gSig (q : ℚ) : ℕ := q.num.natAbs * 10 ^ fracExp q / q.den

/-- Drop trailing `'0'` characters. -/
def stripTrailingZeros (l : List Char) : List Char :=
  (l.reverse.dropWhile fun c => c = '0').reverse

/-- Exponent digits of Go's `%e`\/`%g` output: at least two digits. -/
def expDigits (e : ℕ) : List Char := if e < 10 then '0' :: renderNat e else renderNat e

/-- Model of Go's `%g` (shortest) formatting of a non-negative
finite-decimal value: scientific notation exactly when the decimal
exponent is below -4 or at least 21 (strconv's `fmtG` with shortest
precision), plain positional notation otherwise.  A float64 is a dyadic
rational, so its shortest decimal form is a finite decimal; the model
prints the exact decimal expansion. -/
def gFormatPos (q : ℚ) : List Char :=
  let k := fracExp q
  let ds := natDigits (gSig q)
  let dp : ℤ := (ds.length : ℤ) - k
  if dp - 1 < -4 ∨ 21 ≤ dp - 1 then
    (match stripTrailingZeros ds with
     | [] => ['0']
     | c :: tail => c :: (if tail = [] then [] else '.' :: tail)) ++
      'e' :: (if dp - 1 < 0 then '-' else '+') :: expDigits (dp - 1).natAbs
  else if dp ≤ 0 then '0' :: '.' :: (List.replicate (-dp).toNat '0' ++ ds)
  else if dp < (ds.length : ℤ) then ds.take dp.toNat ++ '.' :: ds.drop dp.toNat
  else ds ++ List.replicate (dp.toNat - ds.length) '0'

/-- Model of Go's `%g` on a signed value. -/
def gFormat (q : ℚ) : List Char :=
  if q < 0 then '-' :: gFormatPos (-q) else gFormatPos q

/-- Model of the template helper `formatSeconds` (lines 168-174).  The Go
test `ts == float64(int64(ts))` holds exactly for integer-valued float64s
inside the int64 range (out-of-range conversion yields a value that breaks
the equality, per gc's amd64 behaviour); that branch prints with `%.0f`
(plain integer), the other with `%g`. -/
def formatSeconds (ts : ℚ) : List Char :=
  if ts.den = 1 ∧ -(2 ^ 63) ≤ ts.num ∧ ts.num < 2 ^ 63 then renderInt ts.num
  else gFormat ts

/-! ### The template engine

`String()` renders through `html/template` (lines 167-193).  The model
interprets the parsed template tree with a small evaluator that has real
failure branches (unknown field, unknown function, wrong argument type) so
that unreachability of the `panic(err)` on line 205 is a statement about
this template, not about the evaluator's shape. -/

/-- Values flowing through the template pipeline. -/
inductive TVal where
  | vInt : ℤ → TVal
  | vRat : ℚ → TVal
  | vBool : Bool → TVal
  | vStr : List Char → TVal
  | vDur : Duration → TVal
  deriving DecidableEq

/-- Template pipeline expressions: `.`, a field/method of the dot, or a
`FuncMap` function applied to an argument. -/
inductive TExpr where
  | dot : TExpr
  | field : String → TExpr
  | call : String → TExpr → TExpr
  deriving DecidableEq

/-- Template nodes: literal text, `{{expr}}` output, `{{if expr}}body{{end}}`,
and sequencing. -/
inductive TNode where
  | txt : List Char → TNode
  | out : TExpr → TNode
  | cond : TExpr → TNode → TNode
  | seq : TNode → TNode → TNode

/-- Field or niladic-method access on the dot value `Duration`. -/
def fieldVal (d : Duration) : String → Except String TVal
  | "Y" => .ok (.vInt d.Y)
  | "M" => .ok (.vInt d.M)
  | "W" => .ok (.vInt d.W)
  | "D" => .ok (.vInt d.D)
  | "TH" => .ok (.vInt d.TH)
  | "TM" => .ok (.vInt d.TM)
  | "TS" => .ok (.vRat d.TS)
  | "HasTimePart" => .ok (.vBool d.HasTimePart)
  | _ => .error "can not evaluate field"

/-- The `FuncMap` of the template (lines 167-190): `formatSeconds`,
`isNegative`, `abs`, `absFloat`; anything else, or an argument of the
wrong type, is an execution error. -/
def applyFunc : String → TVal → Except String TVal
  | "isNegative", .vDur x => .ok (.vBool x.IsNegative)
  | "abs", .vInt n => .ok (.vInt (absInt64 n))
  | "absFloat", .vRat q => .ok (.vRat (if q < 0 then -q else q))
  | "formatSeconds", .vRat q => .ok (.vStr (formatSeconds q))
  | _, _ => .error "wrong function or argument type"

/-- Go template truthiness: zero numbers, false, empty strings are falsy. -/
def truthy : TVal → Bool
  | .vInt n => decide (n ≠ 0)
  | .vRat q => decide (q ≠ 0)
  | .vBool b => b
  | .vStr s => decide (s ≠ [])
  | .vDur _ => true

/-- Printed form of a pipeline value (`fmt`-style). -/
def renderVal : TVal → List Char
  | .vInt n => renderInt n
  | .vRat q => gFormat q
  | .vBool b => if b then "true".toList else "false".toList
  | .vStr s => s
  | .vDur _ => []

/-- Evaluate a pipeline expression against the dot value. -/
def evalExpr (d : Duration) : TExpr → Except String TVal
  | .dot => .ok (.vDur d)
  | .field f => fieldVal d f
  | .call f a => do applyFunc f (← evalExpr d a)

/-- Execute a template node against the dot value. -/
def execNode (d : Duration) : TNode → Except String (List Char)
  | .txt s => .ok s
  | .out e => do pure (renderVal (← evalExpr d e))
  | .cond e b => do if truthy (← evalExpr d e) then execNode d b else pure []
  | .seq a b => do pure ((← execNode d a) ++ (← execNode d b))

/-- The parsed duration template (lines 190-193). -/
def durationTmpl : TNode :=
  .seq (.cond (.call "isNegative" .dot) (.txt ['-']))
  (.seq (.txt ['P'])
  (.seq (.cond (.field "Y") (.seq (.out (.call "abs" (.field "Y"))) (.txt ['Y'])))
  (.seq (.cond (.field "M") (.seq (.out (.call "abs" (.field "M"))) (.txt ['M'])))
  (.seq (.cond (.field "W") (.seq (.out (.call "abs" (.field "W"))) (.txt ['W'])))
  (.seq (.cond (.field "D") (.seq (.out (.call "abs" (.field "D"))) (.txt ['D'])))
  (.seq (.cond (.field "HasTimePart") (.txt ['T']))
  (.seq (.cond (.field "TH") (.seq (.out (.call "abs" (.field "TH"))) (.txt ['H'])))
  (.seq (.cond (.field "TM") (.seq (.out (.call "abs" (.field "TM"))) (.txt ['M'])))
  (.cond (.field "TS")
    (.seq (.out (.call "formatSeconds" (.call "absFloat" (.field "TS")))) (.txt ['S'])))))))))))

/-- Model of `tmpl.Execute` on a Duration. -/
def tmplExecute (d : Duration) : Except String (List Char) :=
  execNode d durationTmpl

/-- Model of `Duration.String` (lines 196-209): the `P0D` short-circuit for
the zero value, then template execution; the `panic(err)` branch of the Go
code corresponds to the `.error` case, modelled as returning `[]`. -/
def durString (d : Duration) : List Char :=
  if d.IsZero then "P0D".toList
  else
    match tmplExecute d with
    | .ok s => s
    | .error _ => []

/-- One field segment of the rendered output: digits of the absolute
value followed by the unit letter, or nothing for a zero field. -/
def seg (v : ℤ) (u : Char) : List Char :=
  if v = 0 then [] else renderInt (absInt64 v) ++ [u]

/-- The seconds segment of the rendered output. -/
def segSecs (q : ℚ) : List Char :=
  if q = 0 then [] else formatSeconds (if q < 0 then -q else q) ++ ['S']

/-- Direct description of what the template renders, used to reason about
`durString`. -/
def renderDur (d : Duration) : List Char :=
  (if d.IsNegative then ['-'] else []) ++ 'P' ::
    (seg d.Y 'Y' ++ seg d.M 'M' ++ seg d.W 'W' ++ seg d.D 'D' ++
     (if d.HasTimePart then
        'T' :: (seg d.TH 'H' ++ seg d.TM 'M' ++ segSecs d.TS) else []))

/-! ## Time model

Go's `time.Time` is modelled as the absolute number of nanoseconds since
the Unix epoch, in the UTC location (so a civil date/time determines the
instant directly).  `time.Duration` is an int64 count of nanoseconds. -/

def nsPerSec : ℤ := 1000000000

def nsPerMin : ℤ := 60000000000

def nsPerHour : ℤ := 3600000000000

def nsPerDay : ℤ := 86400000000000

/-- Days since 1970-01-01 of the proleptic-Gregorian civil date
`(y, m, d)` with `m ∈ [1, 12]` (`d` unrestricted: overflow is absorbed
linearly, exactly as Go's `time.Date` does).  This is the standard
era-based civil-from/to-days computation, the same function Go's
`time.absDate`/`time.Date` pair computes. -/
def daysFromCivil (y m d : ℤ) : ℤ :=
  let y1 := y - (if m ≤ 2 then 1 else 0)
  let era := y1 / 400
  let yoe := y1 % 400
  let mp := (m + 9) % 12
  let doy := (153 * mp + 2) / 5 + d - 1
  let doe := yoe * 365 + yoe / 4 - yoe / 100 + doy
  era * 146097 + doe - 719468

/-- Days before the March-based year `y` of a 400-year era
(`y ∈ [0, 400)`). -/
def gN (y : ℕ) : ℕ := 365 * y + y / 4 - y / 100

/-- Year-of-era of a day-of-era: the closed-form extraction used by the
standard civil-from-days algorithm. -/
def yoeOfN (doe : ℕ) : ℕ := (doe - doe / 1460 + doe / 36524 - doe / 146096) / 365

/-- Civil date `(y, m, d)` of the day `z` days after 1970-01-01, inverse
of `daysFromCivil`. -/
def civilFromDays (z : ℤ) : ℤ × ℤ × ℤ :=
  let era := (z + 719468) / 146097
  let doe := ((z + 719468) % 146097).toNat
  let yoe := yoeOfN doe
  let doy := doe - gN yoe
  let mp := (5 * doy + 2) / 153
  let dd := doy - (153 * mp + 2) / 5 + 1
  let m : ℤ := if mp < 10 then (mp : ℤ) + 3 else (mp : ℤ) - 9
  (era * 400 + yoe + (if m ≤ 2 then 1 else 0), m, (dd : ℤ))

/-- Model of `time.Date(y, mo, d, hh, mm, ss, ns, time.UTC)`: Go first
normalizes the month into [1, 12] and each time-of-day field into range,
carrying overflow upward with floor division, then combines the civil
date (day overflow absorbed linearly) with the time of day. -/
def goDate (y mo d hh mm ss ns : ℤ) : ℤ :=
  let y2 := y + (mo - 1) / 12
  let m2 := (mo - 1) % 12 + 1
  let ss2 := ss + ns / nsPerSec
  let ns2 := ns % nsPerSec
  let mm2 := mm + ss2 / 60
  let ss3 := ss2 % 60
  let hh2 := hh + mm2 / 60
  let mm3 := mm2 % 60
  let d2 := d + hh2 / 24
  let hh3 := hh2 % 24
  daysFromCivil y2 m2 d2 * nsPerDay + hh3 * nsPerHour + mm3 * nsPerMin + ss3 * nsPerSec + ns2

/-- Hour-of-day of an instant (UTC). -/
def timeHour (t : ℤ) : ℤ := t % nsPerDay / nsPerHour

/-- Minute-of-hour of an instant (UTC). -/
def timeMin (t : ℤ) : ℤ := t % nsPerHour / nsPerMin

/-- Second-of-minute of an instant (UTC). -/
def timeSec (t : ℤ) : ℤ := t % nsPerMin / nsPerSec

/-- Nanosecond-of-second of an instant. -/
def timeNsec (t : ℤ) : ℤ := t % nsPerSec

/-- Model of `t.AddDate(years, months, days)` (UTC): read the civil date
and wall clock of `t`, offset the date components, rebuild with
`time.Date`. -/
def addDate (t y m d : ℤ) : ℤ :=
  let c := civilFromDays (t / nsPerDay)
  goDate (c.1 + y) (c.2.1 + m) (c.2.2 + d) (timeHour t) (timeMin t) (timeSec t) (timeNsec t)

/-- Model of `time.Duration(d.TS * float64(time.Second))` (line 163): the
float product is modelled exactly; float-to-int conversion truncates
toward zero, and an out-of-range value converts to minInt64 (the Go spec
leaves this implementation-defined; gc on amd64 produces minInt64). -/
def tsNanos (q : ℚ) : ℤ :=
  let t := (q.num * 1000000000).tdiv (q.den : ℤ)
  if -(2 ^ 63) ≤ t ∧ t < 2 ^ 63 then t else -(2 ^ 63)

/-- Model of `Duration.timeDuration` (lines 158-165): TH hours + TM
minutes + TS seconds, in nanoseconds, with int64 arithmetic (one final
wrap is congruent to Go's step-by-step wrapping). -/
def Duration.timeDuration (d : Duration) : ℤ :=
  wrap64 (d.TH * nsPerHour + d.TM * nsPerMin + tsNanos d.TS)

/-- Model of `Duration.Shift` (lines 132-139). -/
def Duration.Shift (d : Duration) (t : ℤ) : ℤ :=
  (if d.Y ≠ 0 ∨ d.M ≠ 0 ∨ d.W ≠ 0 ∨ d.D ≠ 0 then
    addDate t d.Y d.M (d.W * 7 + d.D) else t) + d.timeDuration

/-- Model of `Duration.Unshift` (lines 149-156): negates the components
in place (`AddDate(-d.Y, -d.M, -days)`, `Add(-d.timeDuration())`). -/
def Duration.Unshift (d : Duration) (t : ℤ) : ℤ :=
  (if d.Y ≠ 0 ∨ d.M ≠ 0 ∨ d.W ≠ 0 ∨ d.D ≠ 0 then
    addDate t (-d.Y) (-d.M) (-(d.W * 7 + d.D)) else t) + wrap64 (-d.timeDuration)

/-- Model of `Duration.ToTimeDuration` (lines 323-325). -/
def Duration.ToTimeDuration (d : Duration) : ℤ := d.timeDuration

/-- Model of `FromTimeDuration` (lines 329-342): peel whole hours and
whole minutes with int64 (truncating) division, the remainder becomes the
seconds float (modelled as the exact rational `remainder / 1e9`). -/
def FromTimeDuration (td : ℤ) : Duration :=
  let hours := td.tdiv nsPerHour
  let td2 := td - hours * nsPerHour
  let minutes := td2.tdiv nsPerMin
  let td3 := td2 - minutes * nsPerMin
  { Duration.zero with TH := hours, TM := minutes, TS := mkRat td3 1000000000 }

/-- The shift algorithm as the specification states it (spec §4.3 step
1-3): combine W and D into `totalDays = W*7 + D`; if Y, M, or `totalDays`
is non-zero advance the calendar date by (Y, M, totalDays); then add the
flat time offset. -/
def specShift (d : Duration) (t : ℤ) : ℤ :=
  (if d.Y ≠ 0 ∨ d.M ≠ 0 ∨ d.W * 7 + d.D ≠ 0 then
    addDate t d.Y d.M (d.W * 7 + d.D) else t) + d.timeDuration

example : daysFromCivil 1970 1 1 = 0 := by decide
example : daysFromCivil 2000 3 1 = 11017 := by decide
example : civilFromDays 11017 = (2000, 3, 1) := by decide
example : civilFromDays (-1) = (1969, 12, 31) := by decide
-- Jan 1, 2018 00:00:00 UTC shifted by P10Y5M8DT5H10M6S is Jun 9, 2028 05:10:06 UTC
-- (the Go test TestCanShift's final case).
example : Duration.Shift ⟨10, 5, 0, 8, 5, 10, 6⟩ 1514764800000000000 =
    1844140206000000000 := by decide
example : Duration.Shift { Duration.zero with M := 1 } 1514764800000000000 =
    1517443200000000000 := by decide
example : Duration.Unshift ⟨10, 5, 0, 8, 5, 10, 6⟩ 1844140206000000000 =
    1514764800000000000 := by decide
example : FromTimeDuration 90000000000 =
    { Duration.zero with TM := 1, TS := 30 } := by decide
example : FromTimeDuration (5400000000000 : ℤ) =
    { Duration.zero with TH := 1, TM := 30 } := by decide

example : durString ⟨1, 2, 3, 4, 5, 6, 7⟩ = "P1Y2M3W4DT5H6M7S".toList := by decide
example : durString Duration.zero = "P0D".toList := by decide
example : durString { Duration.zero with TS := mkRat 333444 10000 } = "PT33.3444S".toList := by
  decide
example : durString ⟨-1, -2, 0, -3, -4, -5, -6⟩ = "-P1Y2M3DT4H5M6S".toList := by decide
example : durString { Duration.zero with TS := mkRat 1 100000 } = "PT1e-05S".toList := by decide
example : durString { Duration.zero with TS := mkRat 1 2 } = "PT0.5S".toList := by decide
example : durString { Duration.zero with Y := 3 } = "P3Y".toList := by decide

example : ParseISO8601 "P1Y".toList = ({ Duration.zero with Y := 1 }, none) := by decide
example : ParseISO8601 "P10Y5M8DT5H10M6S".toList =
    (⟨10, 5, 0, 8, 5, 10, 6⟩, none) := by decide
example : ParseISO8601 "PT33.3444S".toList =
    ({ Duration.zero with TS := mkRat 333444 10000 }, none) := by decide
example : ParseISO8601 "-P1Y2M3DT4H5M6S".toList =
    (⟨-1, -2, 0, -3, -4, -5, -6⟩, none) := by decide
example : (ParseISO8601 "".toList).2 = some ParseErr.badFormat := by decide
example : (ParseISO8601 "PP1D".toList).2 = some ParseErr.badFormat := by decide
example : (ParseISO8601 "P1D2F".toList).2 = some ParseErr.badFormat := by decide
example : ParseISO8601 "P1Y9999999999999999999M".toList =
    ({ Duration.zero with Y := 1 }, some ParseErr.outOfRange) := by decide
example : ParseISO8601 "P".toList = (Duration.zero, none) := by decide
example : ParseISO8601 "PT0.5S".toList =
    ({ Duration.zero with TS := mkRat 1 2 }, none) := by decide

/-! ## Claim C10: Subtract = Add ∘ Negate -/

/-- Claim C10: for all Durations `a` and `b`, `Subtract(a, b)` equals
`Add(a, Negate(b))` component-wise, exactly, including the
fractional-seconds field. -/
theorem C10_subtract_eq_add_negate (a b : Duration) :
    a.Subtract b = a.Add b.Negate := by
  simp [Duration.Subtract, Duration.Add, Duration.Negate, sub_eq_add_neg]

/-! ## Claim C8: the zero duration and P0D -/

/-- Claim C8: `String` of the all-zero Duration is exactly `"P0D"`, and
parsing `"P0D"` succeeds with a result whose `IsZero` is true. -/
theorem C8_zero_p0d :
    durString Duration.zero = "P0D".toList ∧
    (ParseISO8601 "P0D".toList).2 = none ∧
    (ParseISO8601 "P0D".toList).1.IsZero = true := by
  decide

/-! ## Claim C7: LessThan -/

/-- Date-field comparison exactly as claim C7 words it: lexicographic in
the order Y, M, W, D, the first differing field deciding (so equal date
parts compare as not-less). -/
def claimDateLex (a b : Duration) : Bool :=
  if a.Y ≠ b.Y then decide (a.Y < b.Y)
  else if a.M ≠ b.M then decide (a.M < b.M)
  else if a.W ≠ b.W then decide (a.W < b.W)
  else if a.D ≠ b.D then decide (a.D < b.D)
  else false

/-- Time-field lexicographic comparison (TH, TM, then TS as ordinary
less-than), as both claim C7 and the code's fall-through use. -/
def claimTimeLex (a b : Duration) : Bool :=
  if a.TH ≠ b.TH then decide (a.TH < b.TH)
  else if a.TM ≠ b.TM then decide (a.TM < b.TM)
  else decide (a.TS < b.TS)

/-- LessThan as claim C7 words it: date lexicographic comparison whenever
either operand has a non-zero date component, time comparison only in the
both-date-parts-all-zero case. -/
def claimLessThan (a b : Duration) : Bool :=
  if a.Y ≠ 0 ∨ a.M ≠ 0 ∨ a.W ≠ 0 ∨ a.D ≠ 0 ∨
      b.Y ≠ 0 ∨ b.M ≠ 0 ∨ b.W ≠ 0 ∨ b.D ≠ 0 then claimDateLex a b
  else claimTimeLex a b

/-- Counterexample to claim C7 as stated: with `a = {Y:1}` and
`b = {Y:1, TH:5}`, the code's `LessThan` falls through the equal date
fields and compares the time fields (giving true), while the claim's
description, which consults the time fields only when both date parts are
all zero, gives false. -/
theorem C7_counterexample :
    Duration.LessThan ⟨1, 0, 0, 0, 0, 0, 0⟩ ⟨1, 0, 0, 0, 5, 0, 0⟩ = true ∧
    claimLessThan ⟨1, 0, 0, 0, 0, 0, 0⟩ ⟨1, 0, 0, 0, 5, 0, 0⟩ = false := by
  decide

/-- LessThan as amended: when either operand has a non-zero date
component, the date fields are compared lexicographically with the first
differing field deciding, but if all four date fields are equal the
comparison falls through to the time fields; with both date parts all
zero the time fields are compared directly. -/
def amendedLessThan (a b : Duration) : Bool :=
  if a.Y ≠ 0 ∨ a.M ≠ 0 ∨ a.W ≠ 0 ∨ a.D ≠ 0 ∨
      b.Y ≠ 0 ∨ b.M ≠ 0 ∨ b.W ≠ 0 ∨ b.D ≠ 0 then
    if a.Y ≠ b.Y ∨ a.M ≠ b.M ∨ a.W ≠ b.W ∨ a.D ≠ b.D then claimDateLex a b
    else claimTimeLex a b
  else claimTimeLex a b

/-- Claim C7 as amended: `LessThan` agrees everywhere with the amended
description (date lexicographic with fall-through to the time fields when
the date fields are all equal). -/
theorem C7_lessThan_amended (a b : Duration) :
    a.LessThan b = amendedLessThan a b := by
  unfold Duration.LessThan amendedLessThan claimDateLex claimTimeLex Duration.lessThanTime
  split_ifs <;> first | rfl | tauto

/-! ## Claim C3: Unshift = Shift ∘ Negate -/

theorem wrap64_congr {a b : ℤ} (h : a % 2 ^ 64 = b % 2 ^ 64) : wrap64 a = wrap64 b := by
  unfold wrap64
  omega

theorem wrap64_neg (x : ℤ) : wrap64 (-wrap64 x) = wrap64 (-x) := by
  unfold wrap64
  omega

theorem wrap64_eq_self {x : ℤ} (h1 : -(2 ^ 63) ≤ x) (h2 : x < 2 ^ 63) : wrap64 x = x := by
  unfold wrap64
  omega

/-- Truncation toward zero commutes with negation up to int64 wrap
(the out-of-range conversion value -2^63 negates to itself mod 2^64). -/
theorem tsNanos_neg (q : ℚ) : tsNanos (-q) % 2 ^ 64 = -tsNanos q % 2 ^ 64 := by
  simp only [tsNanos, Rat.neg_num, Rat.neg_den, neg_mul, Int.neg_tdiv]
  split_ifs <;> omega

/-- Negating a Duration negates its linear time offset (as int64). -/
theorem timeDuration_negate (d : Duration) :
    d.Negate.timeDuration = wrap64 (-d.timeDuration) := by
  unfold Duration.timeDuration
  rw [wrap64_neg]
  simp only [Duration.Negate, nsPerHour, nsPerMin]
  apply wrap64_congr
  have := tsNanos_neg d.TS
  omega

/-- Claim C3: for every Duration `d` and instant `t`,
`Unshift(d, t) = Shift(Negate(d), t)`: the internal component-wise
negation of Unshift is observably the same as negating first. -/
theorem C3_unshift_eq_shift_negate (d : Duration) (t : ℤ) :
    d.Unshift t = d.Negate.Shift t := by
  unfold Duration.Unshift Duration.Shift
  rw [timeDuration_negate]
  simp only [Duration.Negate, neg_ne_zero]
  have harg : -(d.W * 7 + d.D) = -d.W * 7 + -d.D := by ring
  rw [harg]

/-! ## Claim C5: the elapsed-time bridge -/

/-- Truncating division recovers the quotient from `q * c + r` when the
remainder is smaller than `c` in absolute value and has a sign compatible
with the quotient. -/
theorem tdiv_mul_add_small {c q r : ℤ} (hc : 0 < c) (hrl : -c < r) (hrh : r < c)
    (hsign : 0 ≤ q ∧ 0 ≤ r ∨ q ≤ 0 ∧ r ≤ 0) : (q * c + r).tdiv c = q := by
  rcases hsign with ⟨hq, hr0⟩ | ⟨hq, hr0⟩
  · have hnn : 0 ≤ q * c + r := add_nonneg (mul_nonneg hq hc.le) hr0
    rw [Int.tdiv_eq_ediv hnn hc.le, add_comm, Int.add_mul_ediv_right _ _ (ne_of_gt hc),
      Int.ediv_eq_zero_of_lt hr0 hrh]
    ring
  · have hrw : -(q * c + r) = -q * c + -r := by ring
    have hnn : 0 ≤ -q * c + -r :=
      add_nonneg (mul_nonneg (by omega) hc.le) (by omega)
    have h1 : (-(q * c + r)).tdiv c = -q := by
      rw [hrw, Int.tdiv_eq_ediv hnn hc.le, add_comm, Int.add_mul_ediv_right _ _ (ne_of_gt hc),
        Int.ediv_eq_zero_of_lt (by omega) (by omega)]
      ring
    have h2 := Int.neg_tdiv (q * c + r) c
    omega

/-- Counterexample to claim C5 as stated: with no normalization
assumption the bridge roundtrip fails; `{TM: 90}` comes back as
`{TH: 1, TM: 30}`. -/
theorem C5_counterexample :
    FromTimeDuration (Duration.ToTimeDuration { Duration.zero with TM := 90 }) ≠
      { Duration.zero with TM := 90 } := by
  decide

/-- Claim C5 as amended: `FromTimeDuration (ToTimeDuration d)` equals `d`
for date-free Durations whose time fields are a normalized decomposition:
minutes and seconds below an hour's / a minute's worth, seconds carrying
an exact number of nanoseconds, uniform signs, and hours small enough
that the int64 nanosecond total does not overflow. -/
theorem C5_bridge_roundtrip (d : Duration)
    (hdate : d.Y = 0 ∧ d.M = 0 ∧ d.W = 0 ∧ d.D = 0)
    (hTHl : -2562047 < d.TH) (hTHh : d.TH < 2562047)
    (hTMl : -60 < d.TM) (hTMh : d.TM < 60)
    (hTSl : -60 < d.TS) (hTSh : d.TS < 60)
    (hexact : d.TS.num * 1000000000 % (d.TS.den : ℤ) = 0)
    (hsign : 0 ≤ d.TH ∧ 0 ≤ d.TM ∧ 0 ≤ d.TS ∨ d.TH ≤ 0 ∧ d.TM ≤ 0 ∧ d.TS ≤ 0) :
    FromTimeDuration d.ToTimeDuration = d := by
  obtain ⟨k, hk⟩ : ((d.TS.den : ℤ)) ∣ d.TS.num * 1000000000 :=
    Int.dvd_of_emod_eq_zero hexact
  have hden : (0 : ℤ) < (d.TS.den : ℤ) := by exact_mod_cast d.TS.den_pos
  have h60 : d.TS.num < 60 * (d.TS.den : ℤ) := by
    have := Rat.lt_def.mp hTSh
    simpa using this
  have h60' : -(60 * (d.TS.den : ℤ)) < d.TS.num := by
    have := Rat.lt_def.mp hTSl
    simp at this
    omega
  have hk1 : k < 60000000000 := by nlinarith
  have hk2 : -60000000000 < k := by nlinarith
  have hksign : 0 ≤ d.TS ∧ 0 ≤ k ∨ d.TS ≤ 0 ∧ k ≤ 0 := by
    rcases le_or_lt 0 d.TS with h | h
    · left
      refine ⟨h, ?_⟩
      have hnum : 0 ≤ d.TS.num := Rat.num_nonneg.mpr h
      nlinarith
    · right
      refine ⟨h.le, ?_⟩
      have hnum : d.TS.num ≤ 0 := Rat.num_nonpos.mpr h.le
      nlinarith
  have htsn : tsNanos d.TS = k := by
    simp only [tsNanos, hk, Int.mul_tdiv_cancel_left _ (ne_of_gt hden)]
    rw [if_pos]
    constructor <;> omega
  have hTD : d.ToTimeDuration = d.TH * 3600000000000 + (d.TM * 60000000000 + k) := by
    unfold Duration.ToTimeDuration Duration.timeDuration
    simp only [nsPerHour, nsPerMin, htsn]
    rw [wrap64_eq_self] <;> omega
  have hsign2 : 0 ≤ d.TH ∧ 0 ≤ d.TM * 60000000000 + k ∨
      d.TH ≤ 0 ∧ d.TM * 60000000000 + k ≤ 0 := by
    rcases hsign with ⟨h1, h2, h3⟩ | ⟨h1, h2, h3⟩
    · left
      rcases hksign with ⟨_, hkk⟩ | ⟨hts0, hkk⟩
      · constructor <;> [exact h1; omega]
      · have : d.TS = 0 := le_antisymm hts0 h3
        rw [this] at hk
        simp at hk
        constructor <;> omega
    · right
      rcases hksign with ⟨hts0, hkk⟩ | ⟨_, hkk⟩
      · have : d.TS = 0 := le_antisymm h3 hts0
        rw [this] at hk
        simp at hk
        constructor <;> omega
      · constructor <;> [exact h1; omega]
  have h1 : (d.TH * 3600000000000 + (d.TM * 60000000000 + k)).tdiv 3600000000000 = d.TH :=
    tdiv_mul_add_small (by norm_num) (by omega) (by omega) hsign2
  have hsign3 : 0 ≤ d.TM ∧ 0 ≤ k ∨ d.TM ≤ 0 ∧ k ≤ 0 := by
    rcases hsign with ⟨h1, h2, h3⟩ | ⟨h1, h2, h3⟩
    · rcases hksign with ⟨_, hkk⟩ | ⟨hts0, hkk⟩
      · exact Or.inl ⟨h2, hkk⟩
      · have : d.TS = 0 := le_antisymm hts0 h3
        rw [this] at hk
        simp at hk
        exact Or.inl ⟨h2, by omega⟩
    · rcases hksign with ⟨hts0, hkk⟩ | ⟨_, hkk⟩
      · have : d.TS = 0 := le_antisymm h3 hts0
        rw [this] at hk
        simp at hk
        exact Or.inr ⟨h2, by omega⟩
      · exact Or.inr ⟨h2, hkk⟩
  have h2 : (d.TM * 60000000000 + k).tdiv 60000000000 = d.TM :=
    tdiv_mul_add_small (by norm_num) (by omega) (by omega) hsign3
  have hts' : mkRat k 1000000000 = d.TS := by
    rw [Rat.mkRat_eq_div, eq_comm, ← Rat.num_div_den d.TS,
      div_eq_div_iff (by exact_mod_cast hden.ne') (by norm_num)]
    have hz : d.TS.num * 1000000000 = k * (d.TS.den : ℤ) := by
      rw [mul_comm k]
      exact hk
    exact_mod_cast hz
  obtain ⟨dY, dM, dW, dD, dTH, dTM, dTS⟩ := d
  simp only at hTD h1 h2 hts' ⊢
  obtain ⟨rfl, rfl, rfl, rfl⟩ := hdate
  unfold FromTimeDuration
  rw [hTD]
  simp only [nsPerHour, nsPerMin, h1, Duration.zero]
  have hsub : dTH * 3600000000000 + (dTM * 60000000000 + k) - dTH * 3600000000000 =
      dTM * 60000000000 + k := by ring
  rw [hsub, h2]
  have hsub2 : dTM * 60000000000 + k - dTM * 60000000000 = k := by ring
  rw [hsub2, hts']

/-! ## Claim C4: the parser is all-or-nothing -/

/-- An integer step never produces the `badFormat` error. -/
theorem stepInt_preserves (cur : Duration × Option ParseErr) (g : Option (List Char))
    (neg : Bool) (set : Duration → ℤ → Duration)
    (h : cur.2 ≠ some ParseErr.badFormat) :
    (stepInt cur g neg set).2 ≠ some ParseErr.badFormat := by
  obtain ⟨d, e⟩ := cur
  cases e with
  | none =>
    cases g with
    | none => simp [stepInt]
    | some ds =>
      cases hA : goAtoi ds with
      | none => simp [stepInt, hA]
      | some v => simp [stepInt, hA]
  | some err => simpa [stepInt] using h

/-- The seconds step never produces the `badFormat` error. -/
theorem stepSec_preserves (cur : Duration × Option ParseErr)
    (g : Option (List Char × List Char)) (neg : Bool)
    (h : cur.2 ≠ some ParseErr.badFormat) :
    (stepSec cur g neg).2 ≠ some ParseErr.badFormat := by
  obtain ⟨d, e⟩ := cur
  cases e with
  | none =>
    cases g with
    | none => simp [stepSec]
    | some p =>
      obtain ⟨ip, fp⟩ := p
      by_cases hq : parseFloatRangeErr (secValue ip fp) = true <;> simp [stepSec, hq]
  | some err => simpa [stepSec] using h

/-- The conversion loop only ever fails with `outOfRange`. -/
theorem fillFields_no_badFormat (g : RawGroups) (n : Bool) :
    (fillFields g n).2 ≠ some ParseErr.badFormat := by
  unfold fillFields
  exact stepSec_preserves _ _ _ (stepInt_preserves _ _ _ _ (stepInt_preserves _ _ _ _
    (stepInt_preserves _ _ _ _ (stepInt_preserves _ _ _ _ (stepInt_preserves _ _ _ _
      (stepInt_preserves _ _ _ _ (by simp)))))))

/-- Counterexample to claim C4 as stated: on the input
`P1Y9999999999999999999M` the month value overflows int64, `ParseISO8601`
returns an error, and the accompanying Duration carries the year parsed
before the failure (`{Y: 1}`), not the zero value. -/
theorem C4_counterexample :
    ParseISO8601 "P1Y9999999999999999999M".toList =
      ({ Duration.zero with Y := 1 }, some ParseErr.outOfRange) ∧
    ({ Duration.zero with Y := 1 } : Duration) ≠ Duration.zero := by
  decide

/-- Claim C4 as amended: on a grammar mismatch the returned Duration is
the zero value; on a numeric range error the accompanying Duration may
carry the components parsed before the failing group. -/
theorem C4_badFormat_zero (s : List Char)
    (h : (ParseISO8601 s).2 = some ParseErr.badFormat) :
    (ParseISO8601 s).1 = Duration.zero := by
  unfold ParseISO8601 at *
  cases hm : matchDuration s with
  | none => simp [hm]
  | some g =>
    rw [hm] at h
    exact absurd h (fillFields_no_badFormat g _)

/-- Witness for C4_badFormat_zero at the concrete rejected input `"x"`. -/
theorem C4_badFormat_zero_witness :
    (ParseISO8601 "x".toList).2 = some ParseErr.badFormat ∧
    (ParseISO8601 "x".toList).1 = Duration.zero :=
  ⟨by decide, C4_badFormat_zero "x".toList (by decide)⟩

/-! ## Claim C9: String is total -/

theorem execNode_seq_ok {d : Duration} {a b : TNode} {ra rb : List Char}
    (ha : execNode d a = .ok ra) (hb : execNode d b = .ok rb) :
    execNode d (.seq a b) = .ok (ra ++ rb) := by
  simp [execNode, ha, hb, Bind.bind, Except.bind, Pure.pure, Except.pure]

/-- Executing one `{{if .F}}{{abs .F}}u{{end}}` group of the template
yields the field segment. -/
theorem execNode_intSeg (d : Duration) (name : String) (v : ℤ) (u : Char)
    (hf : fieldVal d name = .ok (.vInt v)) :
    execNode d (.cond (.field name) (.seq (.out (.call "abs" (.field name))) (.txt [u]))) =
      .ok (seg v u) := by
  simp only [execNode, evalExpr, hf, Bind.bind, Except.bind, truthy]
  by_cases hv : v = 0 <;>
    simp [hv, seg, applyFunc, renderVal, Pure.pure, Except.pure]

/-- Executing the `{{if isNegative .}}-{{end}}` group. -/
theorem execNode_negSeg (d : Duration) :
    execNode d (.cond (.call "isNegative" .dot) (.txt ['-'])) =
      .ok (if d.IsNegative then ['-'] else []) := by
  simp only [execNode, evalExpr, applyFunc, Bind.bind, Except.bind, truthy]
  by_cases hn : d.IsNegative <;> simp [hn, Pure.pure, Except.pure]

/-- Executing the `{{if .HasTimePart}}T{{end}}` group. -/
theorem execNode_timeSeg (d : Duration) :
    execNode d (.cond (.field "HasTimePart") (.txt ['T'])) =
      .ok (if d.HasTimePart then ['T'] else []) := by
  simp only [execNode, evalExpr, fieldVal, Bind.bind, Except.bind, truthy]
  by_cases hn : d.HasTimePart <;> simp [hn, Pure.pure, Except.pure]

/-- Executing the `{{if .TS}}{{formatSeconds (absFloat .TS)}}S{{end}}` group. -/
theorem execNode_secSeg (d : Duration) :
    execNode d (.cond (.field "TS")
      (.seq (.out (.call "formatSeconds" (.call "absFloat" (.field "TS")))) (.txt ['S']))) =
      .ok (segSecs d.TS) := by
  simp only [execNode, evalExpr, fieldVal, Bind.bind, Except.bind, truthy]
  by_cases hv : d.TS = 0 <;>
    simp [hv, segSecs, applyFunc, renderVal, Pure.pure, Except.pure]

/-- The template renders exactly `renderDur`: execution never reaches an
error. -/
theorem tmplExecute_eq_renderDur (d : Duration) :
    tmplExecute d = Except.ok (renderDur d) := by
  have hY := execNode_intSeg d "Y" d.Y 'Y' rfl
  have hM := execNode_intSeg d "M" d.M 'M' rfl
  have hW := execNode_intSeg d "W" d.W 'W' rfl
  have hD := execNode_intSeg d "D" d.D 'D' rfl
  have hTH := execNode_intSeg d "TH" d.TH 'H' rfl
  have hTM := execNode_intSeg d "TM" d.TM 'M' rfl
  have h := execNode_seq_ok (execNode_negSeg d) (execNode_seq_ok (rfl :
      execNode d (.txt ['P']) = .ok ['P'])
    (execNode_seq_ok hY (execNode_seq_ok hM (execNode_seq_ok hW (execNode_seq_ok hD
      (execNode_seq_ok (execNode_timeSeg d) (execNode_seq_ok hTH
        (execNode_seq_ok hTM (execNode_secSeg d)))))))))
  rw [tmplExecute, durationTmpl]
  rw [h]
  congr 1
  by_cases ht : d.HasTimePart
  · simp [renderDur, ht, List.append_assoc]
  · have hzero : d.TH = 0 ∧ d.TM = 0 ∧ d.TS = 0 := by
      have := ht
      unfold Duration.HasTimePart at this
      simpa using this
    simp [renderDur, ht, hzero.1, hzero.2.1, hzero.2.2, seg, segSecs, List.append_assoc]

/-- Claim C9: String is total: for every Duration value the template
executes successfully (the evaluator's error branches — unknown field,
unknown function, ill-typed argument — are never reached on this
template), so the `panic(err)` branch inside `String` is unreachable
and `String` always returns a string. -/
theorem C9_string_total (d : Duration) :
    ∃ s, tmplExecute d = Except.ok s ∧
      durString d = (if d.IsZero then "P0D".toList else s) := by
  refine ⟨renderDur d, tmplExecute_eq_renderDur d, ?_⟩
  unfold durString
  rw [tmplExecute_eq_renderDur d]

/-! ## Claim C2: Shift = calendar step then linear step

The one point where the claim's phrasing and the code's branch condition
differ is `W*7 + D = 0` with `W, D ≠ 0`: the code still calls
`AddDate(Y, M, 0)`.  Equality of the two descriptions therefore needs
`addDate t 0 0 0 = t`, i.e. the civil-date conversion roundtrip. -/

/-- The adjusted day-of-era sum grows monotonically (the correction at a
multiple of 146096 is always compensated, since 36524 divides 146096). -/
theorem doeAdj_mono (n : ℕ) : n - n / 1460 + n / 36524 - n / 146096 ≤
    (n + 1) - (n + 1) / 1460 + (n + 1) / 36524 - (n + 1) / 146096 := by
  omega

theorem doeAdj_le {a b : ℕ} (h : a ≤ b) :
    a - a / 1460 + a / 36524 - a / 146096 ≤ b - b / 1460 + b / 36524 - b / 146096 := by
  induction b with
  | zero => omega
  | succ n ih =>
    rcases Nat.lt_succ_iff_lt_or_eq.mp (Nat.lt_succ_of_le h) with h1 | h1
    · exact le_trans (ih (by omega)) (doeAdj_mono n)
    · omega

theorem yoeOfN_mono {a b : ℕ} (h : a ≤ b) : yoeOfN a ≤ yoeOfN b :=
  Nat.div_le_div_right (doeAdj_le h)

theorem yoe_low : ∀ y < 400, yoeOfN (gN y) = y := by decide

theorem yoe_high : ∀ y < 399, yoeOfN (gN (y + 1) - 1) = y := by decide

theorem yoe_top : yoeOfN 146096 = 399 := by decide

theorem gN_step : ∀ y < 399, gN (y + 1) ≤ gN y + 366 := by decide

theorem gN_399 : gN 399 = 145731 := by decide

/-- Any day-of-era lies in the year its extraction formula computes, and
at most 365 days into it. -/
theorem yoe_sandwich {doe : ℕ} (h : doe < 146097) :
    gN (yoeOfN doe) ≤ doe ∧ yoeOfN doe < 400 ∧ doe - gN (yoeOfN doe) ≤ 365 := by
  have hP0 : gN 0 ≤ doe := by simp [gN]
  have hy0le : Nat.findGreatest (fun y => gN y ≤ doe) 399 ≤ 399 := Nat.findGreatest_le 399
  have hPy0 : gN (Nat.findGreatest (fun y => gN y ≤ doe) 399) ≤ doe :=
    @Nat.findGreatest_spec 0 (fun y => gN y ≤ doe) _ 399 (Nat.zero_le 399) hP0
  set y0 := Nat.findGreatest (fun y => gN y ≤ doe) 399 with hy0
  have hlow : y0 ≤ yoeOfN doe := by
    have h1 : yoeOfN (gN y0) ≤ yoeOfN doe := yoeOfN_mono hPy0
    rwa [yoe_low y0 (by omega)] at h1
  have hhigh : yoeOfN doe ≤ y0 := by
    by_cases h399 : y0 = 399
    · have h1 : yoeOfN doe ≤ yoeOfN 146096 := yoeOfN_mono (by omega)
      rw [yoe_top] at h1
      omega
    · have hnP : ¬ gN (y0 + 1) ≤ doe :=
        @Nat.findGreatest_is_greatest (y0 + 1) (fun y => gN y ≤ doe) _ 399
          (by omega) (by omega)
      have h1 : yoeOfN doe ≤ yoeOfN (gN (y0 + 1) - 1) := yoeOfN_mono (by omega)
      rwa [yoe_high y0 (by omega)] at h1
  have heq : yoeOfN doe = y0 := le_antisymm hhigh hlow
  rw [heq]
  refine ⟨hPy0, by omega, ?_⟩
  by_cases h399 : y0 = 399
  · rw [h399]
    have := gN_399
    omega
  · have hnP : ¬ gN (y0 + 1) ≤ doe :=
      @Nat.findGreatest_is_greatest (y0 + 1) (fun y => gN y ≤ doe) _ 399
        (by omega) (by omega)
    have := gN_step y0 (by omega)
    omega

/-- `daysFromCivil` shifts by a whole era per 400 years. -/
theorem daysFromCivil_add_era (y m d era : ℤ) :
    daysFromCivil (y + era * 400) m d = daysFromCivil y m d + era * 146097 := by
  simp only [daysFromCivil]
  split_ifs <;> omega

/-- In-era core of the civil roundtrip. -/
theorem roundtrip_core (doe : ℕ) (hdoe : doe < 146097) :
    daysFromCivil
        ((yoeOfN doe : ℤ) +
          (if (if (5 * (doe - gN (yoeOfN doe)) + 2) / 153 < 10 then
              ((5 * (doe - gN (yoeOfN doe)) + 2) / 153 : ℕ) + 3 else
              ((5 * (doe - gN (yoeOfN doe)) + 2) / 153 : ℕ) - 9 : ℤ) ≤ 2 then 1 else 0))
        (if (5 * (doe - gN (yoeOfN doe)) + 2) / 153 < 10 then
          ((5 * (doe - gN (yoeOfN doe)) + 2) / 153 : ℕ) + 3 else
          ((5 * (doe - gN (yoeOfN doe)) + 2) / 153 : ℕ) - 9)
        ((doe - gN (yoeOfN doe) -
          (153 * ((5 * (doe - gN (yoeOfN doe)) + 2) / 153) + 2) / 5 + 1 : ℕ)) =
      (doe : ℤ) - 719468 := by
  obtain ⟨hg, hy400, hdoy365⟩ := yoe_sandwich hdoe
  set y := yoeOfN doe with hy
  set doy := doe - gN y with hdoy
  set mp := (5 * doy + 2) / 153 with hmp
  set w := (153 * mp + 2) / 5 with hw
  set dd := doy - w + 1 with hdd
  have hgZ : (gN y : ℤ) = 365 * (y : ℤ) + (y : ℤ) / 4 - (y : ℤ) / 100 := by
    simp only [gN]
    omega
  have hdoyZ : (doy : ℤ) = (doe : ℤ) - (gN y : ℤ) := by omega
  have hmpZ : (mp : ℤ) = (5 * (doy : ℤ) + 2) / 153 := by omega
  have hmp11 : mp ≤ 11 := by omega
  have hwZ : (w : ℤ) = (153 * (mp : ℤ) + 2) / 5 := by omega
  have hwle : w ≤ doy := by omega
  have hddZ : (dd : ℤ) = (doy : ℤ) - (w : ℤ) + 1 := by omega
  simp only [daysFromCivil]
  split_ifs with h1 h2 h3
  · omega
  · have e1 : ((mp : ℤ) + 3 + 9) % 12 = (mp : ℤ) := by omega
    have e2 : ((y : ℤ) + 0 - 0) / 400 = 0 := by omega
    have e3 : ((y : ℤ) + 0 - 0) % 400 = (y : ℤ) := by omega
    rw [e1, e2, e3]
    omega
  · have e1 : ((mp : ℤ) - 9 + 9) % 12 = (mp : ℤ) := by omega
    have e2 : ((y : ℤ) + 1 - 1) / 400 = 0 := by omega
    have e3 : ((y : ℤ) + 1 - 1) % 400 = (y : ℤ) := by omega
    rw [e1, e2, e3]
    omega
  · omega

/-- The civil conversion roundtrip: reconstructing the day count from the
extracted civil date is the identity, and the extracted month is in
[1, 12]. -/
theorem civilFromDays_spec (z : ℤ) :
    daysFromCivil (civilFromDays z).1 (civilFromDays z).2.1 (civilFromDays z).2.2 = z ∧
    1 ≤ (civilFromDays z).2.1 ∧ (civilFromDays z).2.1 ≤ 12 := by
  have hdoe0 : 0 ≤ (z + 719468) % 146097 := Int.emod_nonneg _ (by norm_num)
  have hdoe1 : (z + 719468) % 146097 < 146097 := Int.emod_lt_of_pos _ (by norm_num)
  have hdoeB : ((z + 719468) % 146097).toNat < 146097 := by omega
  have hcore := roundtrip_core ((z + 719468) % 146097).toNat hdoeB
  obtain ⟨hg, hy400, hdoy365⟩ := yoe_sandwich hdoeB
  simp only [civilFromDays]
  set doe := ((z + 719468) % 146097).toNat with hdoeN
  set y := yoeOfN doe with hy
  set doy := doe - gN y with hdoy
  set mp := (5 * doy + 2) / 153 with hmp
  set w := (153 * mp + 2) / 5 with hw
  set dd := doy - w + 1 with hdd
  have hmp11 : mp ≤ 11 := by omega
  refine ⟨?_, by constructor <;> split_ifs <;> omega⟩
  rw [show ((z + 719468) / 146097 * 400 + (y : ℤ) +
      (if (if mp < 10 then (mp : ℕ) + 3 else (mp : ℕ) - 9 : ℤ) ≤ 2 then 1 else 0)) =
      (((y : ℤ) +
        (if (if mp < 10 then (mp : ℕ) + 3 else (mp : ℕ) - 9 : ℤ) ≤ 2 then 1 else 0)) +
        (z + 719468) / 146097 * 400) from by ring]
  rw [daysFromCivil_add_era, hcore]
  omega

/-- `AddDate(0, 0, 0)` is the identity (UTC model): rebuilding an instant
from its extracted civil date and clock gives the instant back. -/
theorem addDate_zero (t : ℤ) : addDate t 0 0 0 = t := by
  obtain ⟨hrt, hm1, hm12⟩ := civilFromDays_spec (t / nsPerDay)
  have hmnorm1 : ((civilFromDays (t / nsPerDay)).2.1 - 1) / 12 = 0 := by omega
  have hmnorm2 : ((civilFromDays (t / nsPerDay)).2.1 - 1) % 12 + 1 =
      (civilFromDays (t / nsPerDay)).2.1 := by omega
  have hns : timeNsec t / nsPerSec = 0 := by
    simp only [timeNsec, nsPerSec]
    omega
  have hns2 : timeNsec t % nsPerSec = timeNsec t := by
    simp only [timeNsec, nsPerSec]
    omega
  have hss : timeSec t / 60 = 0 := by
    simp only [timeSec, nsPerMin, nsPerSec]
    omega
  have hss2 : timeSec t % 60 = timeSec t := by
    simp only [timeSec, nsPerMin, nsPerSec]
    omega
  have hmm : timeMin t / 60 = 0 := by
    simp only [timeMin, nsPerHour, nsPerMin]
    omega
  have hmm2 : timeMin t % 60 = timeMin t := by
    simp only [timeMin, nsPerHour, nsPerMin]
    omega
  have hhh : timeHour t / 24 = 0 := by
    simp only [timeHour, nsPerDay, nsPerHour]
    omega
  have hhh2 : timeHour t % 24 = timeHour t := by
    simp only [timeHour, nsPerDay, nsPerHour]
    omega
  simp only [addDate, goDate, add_zero, hmnorm1, hmnorm2, hns, hns2, hss, hss2,
    hmm, hmm2, hhh, hhh2]
  rw [hrt]
  simp only [timeHour, timeMin, timeSec, timeNsec, nsPerDay, nsPerHour, nsPerMin, nsPerSec]
  omega

/-- Claim C2: `Shift(d, t)` advances the calendar date by `(Y, M, W*7+D)`
when `Y`, `M`, or the combined day count `W*7 + D` is non-zero, and then
adds the flat linear time offset, the date step preceding the time step
and using exactly `W*7 + D` days. -/
theorem C2_shift_spec (d : Duration) (t : ℤ) : d.Shift t = specShift d t := by
  unfold Duration.Shift specShift
  by_cases h1 : d.Y ≠ 0 ∨ d.M ≠ 0 ∨ d.W ≠ 0 ∨ d.D ≠ 0
  · by_cases h2 : d.Y ≠ 0 ∨ d.M ≠ 0 ∨ d.W * 7 + d.D ≠ 0
    · rw [if_pos h1, if_pos h2]
    · push_neg at h2
      rw [if_pos h1, if_neg (by push_neg; exact h2)]
      rw [h2.1, h2.2.1, h2.2.2, addDate_zero]
  · have h2 : ¬(d.Y ≠ 0 ∨ d.M ≠ 0 ∨ d.W * 7 + d.D ≠ 0) := by
      push_neg at h1 ⊢
      refine ⟨h1.1, h1.2.1, ?_⟩
      rw [h1.2.2.1, h1.2.2.2]
      ring
    rw [if_neg h1, if_neg h2]

/-! ## Digit-string lemmas -/

theorem digitChar_isDigit {d : ℕ} (h : d < 10) : (digitChar d).isDigit = true := by
  interval_cases d <;> decide

theorem digitChar_val {d : ℕ} (h : d < 10) : (digitChar d).toNat - 48 = d := by
  interval_cases d <;> decide

theorem foldl_digitsToNat (i : ℕ) (l : List Char) :
    l.foldl (fun a c => 10 * a + (c.toNat - 48)) i = i * 10 ^ l.length + digitsToNat l := by
  induction l generalizing i with
  | nil => simp [digitsToNat]
  | cons c t ih =>
    simp only [List.foldl_cons, List.length_cons, digitsToNat]
    rw [ih, ih (10 * 0 + (c.toNat - 48))]
    ring

theorem digitsToNat_append (a b : List Char) :
    digitsToNat (a ++ b) = digitsToNat a * 10 ^ b.length + digitsToNat b := by
  unfold digitsToNat
  rw [List.foldl_append, foldl_digitsToNat]
  rfl

theorem digitsToNat_singleton (c : Char) : digitsToNat [c] = c.toNat - 48 := by
  simp [digitsToNat]

theorem natDigitsAux_spec : ∀ fuel n, n ≤ fuel →
    digitsToNat (natDigitsAux fuel n) = n ∧
    (∀ c ∈ natDigitsAux fuel n, c.isDigit = true) ∧
    (n ≠ 0 → natDigitsAux fuel n ≠ []) := by
  intro fuel
  induction fuel with
  | zero =>
    intro n hn
    have : n = 0 := by omega
    subst this
    simp [natDigitsAux, digitsToNat]
  | succ f ih =>
    intro n hn
    by_cases h0 : n = 0
    · subst h0
      simp [natDigitsAux, digitsToNat]
    · obtain ⟨hval, hdig, _⟩ := ih (n / 10) (by omega)
      simp only [natDigitsAux, if_neg h0]
      refine ⟨?_, ?_, fun _ => by simp⟩
      · rw [digitsToNat_append, hval, digitsToNat_singleton,
          digitChar_val (show n % 10 < 10 by omega)]
        simp
        omega
      · intro c hc
        rcases List.mem_append.mp hc with h | h
        · exact hdig c h
        · simp at h
          subst h
          exact digitChar_isDigit (by omega)

theorem natDigits_val (n : ℕ) : digitsToNat (natDigits n) = n :=
  (natDigitsAux_spec (n + 1) n (by omega)).1

theorem natDigits_digits (n : ℕ) : ∀ c ∈ natDigits n, c.isDigit = true :=
  (natDigitsAux_spec (n + 1) n (by omega)).2.1

theorem natDigits_ne_nil {n : ℕ} (h : n ≠ 0) : natDigits n ≠ [] :=
  (natDigitsAux_spec (n + 1) n (by omega)).2.2 h

theorem natDigitsAux_zero (fuel : ℕ) : natDigitsAux fuel 0 = [] := by
  cases fuel <;> simp [natDigitsAux]

theorem natDigitsAux_len : ∀ fuel n, n ≤ fuel → n ≠ 0 →
    n < 10 ^ (natDigitsAux fuel n).length ∧
    10 ^ (natDigitsAux fuel n).length ≤ 10 * n := by
  intro fuel
  induction fuel with
  | zero => omega
  | succ f ih =>
    intro n hn h0
    simp only [natDigitsAux, if_neg h0, List.length_append, List.length_singleton]
    by_cases hsmall : n < 10
    · have hq : n / 10 = 0 := by omega
      rw [hq, natDigitsAux_zero]
      simp
      omega
    · have hne : n / 10 ≠ 0 := by omega
      obtain ⟨ha, hb⟩ := ih (n / 10) (by omega) hne
      rw [pow_succ]
      omega

theorem natDigits_len (n : ℕ) (h0 : n ≠ 0) :
    n < 10 ^ (natDigits n).length ∧ 10 ^ (natDigits n).length ≤ 10 * n :=
  natDigitsAux_len (n + 1) n (by omega) h0

theorem digitsToNat_replicate_zero (m : ℕ) : digitsToNat (List.replicate m '0') = 0 := by
  induction m with
  | zero => simp [digitsToNat]
  | succ k ih =>
    have : List.replicate (k + 1) '0' = '0' :: List.replicate k '0' := rfl
    rw [this]
    unfold digitsToNat at ih ⊢
    simpa using ih

/-! ## Scanner lemmas -/

theorem span_digits (l r : List Char) (hl : ∀ c ∈ l, c.isDigit = true)
    (hr : ∀ c, r.head? = some c → c.isDigit = false) :
    (l ++ r).takeWhile Char.isDigit = l ∧ (l ++ r).dropWhile Char.isDigit = r := by
  induction l with
  | nil =>
    simp only [List.nil_append]
    cases r with
    | nil => simp
    | cons c t =>
      have hc := hr c rfl
      constructor <;> simp [List.takeWhile_cons, List.dropWhile_cons, hc]
  | cons c t ih =>
    have hc : c.isDigit = true := hl c (by simp)
    have ihh := ih (fun x hx => hl x (by simp [hx]))
    simp [List.takeWhile_cons, List.dropWhile_cons, hc, ihh.1, ihh.2]

theorem pGroup_hit (u : Char) (l r : List Char) (hne : l ≠ [])
    (hl : ∀ c ∈ l, c.isDigit = true) (hu : u.isDigit = false) :
    pGroup u (l ++ u :: r) = (some l, r) := by
  obtain ⟨htw, hdw⟩ := span_digits l (u :: r) hl (by
    intro c hc
    simp at hc
    rw [← hc]
    exact hu)
  obtain ⟨c0, l', rfl⟩ := List.exists_cons_of_ne_nil hne
  simp only [List.cons_append] at htw hdw
  simp [pGroup, htw, hdw]

theorem pGroup_missHead (u : Char) (s : List Char)
    (hs : ∀ c, s.head? = some c → c.isDigit = false) :
    pGroup u s = (none, s) := by
  cases s with
  | nil => rfl
  | cons c t =>
    have hc := hs c rfl
    simp [pGroup, List.takeWhile_cons, List.dropWhile_cons, hc]

theorem pGroup_missUnit (u : Char) (l : List Char) (c : Char) (r : List Char)
    (hne : l ≠ []) (hl : ∀ x ∈ l, x.isDigit = true) (hc : c.isDigit = false) (hcu : c ≠ u) :
    pGroup u (l ++ c :: r) = (none, l ++ c :: r) := by
  obtain ⟨htw, hdw⟩ := span_digits l (c :: r) hl (by
    intro x hx
    simp at hx
    rw [← hx]
    exact hc)
  obtain ⟨c0, l', rfl⟩ := List.exists_cons_of_ne_nil hne
  simp only [List.cons_append] at htw hdw
  simp [pGroup, htw, hdw, hcu]

theorem pSecond_missHead (s : List Char)
    (hs : ∀ c, s.head? = some c → c.isDigit = false) :
    pSecond s = (none, s) := by
  cases s with
  | nil => rfl
  | cons c t =>
    have hc := hs c rfl
    simp [pSecond, List.takeWhile_cons, List.dropWhile_cons, hc]

theorem pSecond_hitInt (l r : List Char) (hne : l ≠ [])
    (hl : ∀ c ∈ l, c.isDigit = true) :
    pSecond (l ++ 'S' :: r) = (some (l, []), r) := by
  obtain ⟨htw, hdw⟩ := span_digits l ('S' :: r) hl (by
    intro x hx
    simp at hx
    rw [← hx]
    decide)
  obtain ⟨c0, l', rfl⟩ := List.exists_cons_of_ne_nil hne
  simp only [List.cons_append] at htw hdw
  simp [pSecond, htw, hdw]

theorem pSecond_hitFrac (l f r : List Char) (hnel : l ≠ []) (hnef : f ≠ [])
    (hl : ∀ c ∈ l, c.isDigit = true) (hf : ∀ c ∈ f, c.isDigit = true) :
    pSecond (l ++ '.' :: (f ++ 'S' :: r)) = (some (l, f), r) := by
  obtain ⟨htw, hdw⟩ := span_digits l ('.' :: (f ++ 'S' :: r)) hl (by
    intro x hx
    simp at hx
    rw [← hx]
    decide)
  obtain ⟨htw2, hdw2⟩ := span_digits f ('S' :: r) hf (by
    intro x hx
    simp at hx
    rw [← hx]
    decide)
  obtain ⟨c0, l', rfl⟩ := List.exists_cons_of_ne_nil hnel
  obtain ⟨c1, f', rfl⟩ := List.exists_cons_of_ne_nil hnef
  simp only [List.cons_append] at htw hdw htw2 hdw2
  simp [pSecond, htw, hdw, htw2, hdw2]

/-! ## Decimal-denominator lemmas -/

theorem pMultAux_spec (p : ℕ) (hp : 2 ≤ p) : ∀ fuel n, n ≤ fuel → n ≠ 0 →
    p ^ pMultAux p fuel n ∣ n ∧ ¬ p ^ (pMultAux p fuel n + 1) ∣ n := by
  intro fuel
  induction fuel with
  | zero => omega
  | succ f ih =>
    intro n hn h0
    by_cases hdvd : n % p = 0
    · have hcond : 2 ≤ p ∧ n ≠ 0 ∧ n % p = 0 := ⟨hp, h0, hdvd⟩
      simp only [pMultAux, if_pos hcond]
      obtain ⟨m, rfl⟩ := Nat.dvd_of_mod_eq_zero hdvd
      have hm0 : m ≠ 0 := by
        rintro rfl
        simp at h0
      have h2m : 2 * m ≤ p * m := Nat.mul_le_mul_right m hp
      have hq : (p * m) / p = m := Nat.mul_div_cancel_left m (by omega)
      rw [hq]
      obtain ⟨ha, hb⟩ := ih m (by omega) hm0
      constructor
      · rw [pow_succ]
        have h1 := mul_dvd_mul ha (dvd_refl p)
        rwa [mul_comm m p] at h1
      · intro hcon
        apply hb
        have h2 : p * p ^ (pMultAux p f m + 1) ∣ p * m := by
          rw [show p * p ^ (pMultAux p f m + 1) = p ^ (pMultAux p f m + 1 + 1) from by ring]
          exact hcon
        exact (Nat.mul_dvd_mul_iff_left (show 0 < p by omega)).mp h2
    · have hcond : ¬(2 ≤ p ∧ n ≠ 0 ∧ n % p = 0) := by tauto
      simp only [pMultAux, if_neg hcond]
      refine ⟨by simp, ?_⟩
      rw [zero_add, pow_one]
      intro hd
      obtain ⟨c, rfl⟩ := hd
      exact hdvd (Nat.mul_mod_right p c)

theorem pMult_spec (p : ℕ) (hp : 2 ≤ p) (n : ℕ) (h0 : n ≠ 0) :
    p ^ pMult p n ∣ n ∧ ¬ p ^ (pMult p n + 1) ∣ n :=
  pMultAux_spec p hp n n le_rfl h0

/-- A divisor of a power of 10 divides `10 ^ (its 2-adic ⊔ 5-adic valuation)`. -/
theorem smooth_dvd_pow (n L : ℕ) (hn : n ≠ 0) (h : n ∣ 10 ^ L) :
    n ∣ 10 ^ max (pMult 2 n) (pMult 5 n) := by
  rw [show (10 : ℕ) ^ L = 2 ^ L * 5 ^ L from by rw [← Nat.mul_pow]] at h
  obtain ⟨a, b, ha, hb, hab⟩ := Nat.dvd_mul.mp h
  obtain ⟨i, hiL, rfl⟩ := (Nat.dvd_prime_pow Nat.prime_two).mp ha
  obtain ⟨j, hjL, rfl⟩ := (Nat.dvd_prime_pow (by norm_num)).mp hb
  obtain ⟨h2a, h2b⟩ := pMult_spec 2 (by norm_num) n hn
  obtain ⟨h5a, h5b⟩ := pMult_spec 5 (by norm_num) n hn
  have hi : i ≤ pMult 2 n := by
    by_contra hlt
    push_neg at hlt
    exact h2b (dvd_trans (pow_dvd_pow 2 (by omega))
      (hab ▸ dvd_mul_right (2 ^ i) (5 ^ j)))
  have hj : j ≤ pMult 5 n := by
    by_contra hlt
    push_neg at hlt
    exact h5b (dvd_trans (pow_dvd_pow 5 (by omega))
      (hab ▸ dvd_mul_left (5 ^ j) (2 ^ i)))
  set K := max (pMult 2 n) (pMult 5 n) with hK
  rw [show (10 : ℕ) ^ K = 2 ^ K * 5 ^ K from by rw [← Nat.mul_pow], ← hab]
  exact mul_dvd_mul
    (pow_dvd_pow 2 (by rw [hK]; exact le_trans hi (le_max_left _ _)))
    (pow_dvd_pow 5 (by rw [hK]; exact le_trans hj (le_max_right _ _)))

/-- The significand of a positive finite-decimal rational is exact and
non-zero. -/
theorem gSig_spec (q : ℚ) (hq : 0 < q) (hdvd : (q.den : ℕ) ∣ 10 ^ fracExp q) :
    gSig q * q.den = q.num.toNat * 10 ^ fracExp q ∧ gSig q ≠ 0 := by
  have hnum : 0 < q.num := Rat.num_pos.mpr hq
  have habs : q.num.natAbs = q.num.toNat := by omega
  have hdvd2 : q.den ∣ q.num.natAbs * 10 ^ fracExp q := Dvd.dvd.mul_left hdvd _
  constructor
  · unfold gSig
    rw [Nat.div_mul_cancel hdvd2, habs]
  · unfold gSig
    intro hz
    have h1 : q.num.natAbs * 10 ^ fracExp q ≠ 0 := by
      have : q.num.natAbs ≠ 0 := by omega
      positivity
    have h2 := Nat.div_mul_cancel hdvd2
    rw [hz, zero_mul] at h2
    exact h1 h2.symm

/-- Reconstructing `q` from an exact scaled significand. -/
theorem mkRat_pow_eq (q : ℚ) (m K : ℕ) (hm : (m : ℤ) * q.den = q.num * 10 ^ K) :
    mkRat (m : ℤ) (10 ^ K) = q := by
  rw [Rat.mkRat_eq_div, eq_comm, ← Rat.num_div_den q, div_eq_div_iff
    (by exact_mod_cast (q.den_pos).ne') (by positivity)]
  exact_mod_cast hm.symm


def goodTS (q : ℚ) : Prop :=
  -(1000000000000000000000 : ℚ) < q ∧ q < (1000000000000000000000 : ℚ) ∧
  (q.den = 1 ∨ q ≤ -(mkRat 1 10000) ∨ mkRat 1 10000 ≤ q)

theorem formatSeconds_shape (q : ℚ) (hq : 0 < q)
    (h21 : q < (1000000000000000000000 : ℚ))
    (hlow : q.den = 1 ∨ mkRat 1 10000 ≤ q)
    (hL : ∃ L, (q.den : ℕ) ∣ 10 ^ L) :
    ∃ ip fp : List Char, ip ≠ [] ∧ (∀ c ∈ ip, c.isDigit = true) ∧
      (∀ c ∈ fp, c.isDigit = true) ∧
      ((fp = [] ∧ formatSeconds q = ip) ∨ (fp ≠ [] ∧ formatSeconds q = ip ++ '.' :: fp)) ∧
      secValue ip fp = q := by
  have hnum : 0 < q.num := Rat.num_pos.mpr hq
  have hden1 : 0 < q.den := q.den_pos
  obtain ⟨L0, hL0⟩ := hL
  have hdvd : (q.den : ℕ) ∣ 10 ^ fracExp q := smooth_dvd_pow q.den L0 (by omega) hL0
  by_cases hint : q.den = 1 ∧ -(2 ^ 63) ≤ q.num ∧ q.num < 2 ^ 63
  · have ht0 : q.num.toNat ≠ 0 := by omega
    have hq1 : ((q.num : ℤ) : ℚ) = q := by
      have h := Rat.num_div_den q
      rw [hint.1] at h
      simpa using h
    refine ⟨natDigits q.num.toNat, [], natDigits_ne_nil ht0, natDigits_digits _,
      by simp, Or.inl ⟨rfl, ?_⟩, ?_⟩
    · rw [formatSeconds, if_pos hint]
      unfold renderInt renderNat
      rw [if_neg (by omega), if_neg ht0]
    · unfold secValue
      simp only [List.length_nil, pow_zero, mul_one, natDigits_val]
      rw [show digitsToNat [] = 0 from rfl, Nat.add_zero, Rat.mkRat_one]
      rw [show ((q.num.toNat : ℕ) : ℤ) = q.num from by omega]
      exact hq1
  · rw [formatSeconds, if_neg hint]
    rw [gFormat, if_neg (not_lt.mpr hq.le)]
    obtain ⟨hsig, hsig0⟩ := gSig_spec q hq hdvd
    obtain ⟨hlub, hglb⟩ := natDigits_len (gSig q) hsig0
    simp only [gFormatPos]
    set k := fracExp q with hk
    set n := gSig q with hn
    set ds := natDigits n with hds
    set L := ds.length with hLen
    have hpow21 : (10 : ℕ) ^ 21 = 1000000000000000000000 := by norm_num
    have hq21 : q.num < 1000000000000000000000 * q.den := by
      have h := Rat.lt_def.mp h21
      simp only [Rat.num_ofNat, Rat.den_ofNat, Int.natCast_one, mul_one] at h
      exact_mod_cast h
    have htoN : q.num.toNat < 10 ^ 21 * q.den := by
      rw [hpow21]
      omega
    have hn21 : n < 10 ^ (21 + k) := by
      have h1 : n * q.den < 10 ^ 21 * 10 ^ k * q.den := by
        calc n * q.den = q.num.toNat * 10 ^ k := hsig
        _ < 10 ^ 21 * q.den * 10 ^ k :=
            (Nat.mul_lt_mul_right (show 0 < 10 ^ k by positivity)).mpr htoN
        _ = 10 ^ 21 * 10 ^ k * q.den := by ring
      have h2 := Nat.lt_of_mul_lt_mul_right h1
      rwa [pow_add]
    have hL1 : 1 ≤ L := by
      have hne : ds ≠ [] := natDigits_ne_nil hsig0
      rw [hLen]
      exact List.length_pos.mpr hne
    have hL21 : L ≤ 21 + k := by
      by_contra hcon
      push_neg at hcon
      have h1 : 10 ^ (22 + k) ≤ 10 ^ L := Nat.pow_le_pow_right (by norm_num) (by omega)
      have h2 : 10 * n < 10 ^ (22 + k) := by
        rw [show 22 + k = (21 + k) + 1 from by omega, pow_succ]
        omega
      omega
    have hkL : k ≤ L + 3 := by
      rcases hlow with h1 | h1
      · have hk0 : k = 0 := by
          rw [hk, fracExp, h1]
          decide
        omega
      · have hq4 : (q.den : ℤ) ≤ q.num * 10000 := by
          have h2 := Rat.le_def.mp h1
          rw [show (mkRat 1 10000).num = 1 from by decide,
            show (mkRat 1 10000).den = 10000 from by decide] at h2
          omega
        by_cases hk4 : k ≤ 4
        · omega
        · have hd4 : q.den ≤ 10 ^ 4 * q.num.toNat := by
            have : (10 : ℕ) ^ 4 = 10000 := by norm_num
            omega
          have h7 : n * 10 ^ 4 * q.den = q.num.toNat * 10 ^ 4 * 10 ^ k := by
            calc n * 10 ^ 4 * q.den = n * q.den * 10 ^ 4 := by ring
            _ = q.num.toNat * 10 ^ k * 10 ^ 4 := by rw [hsig]
            _ = q.num.toNat * 10 ^ 4 * 10 ^ k := by ring
          have h9 : 10 ^ k * q.den ≤ n * 10 ^ 4 * q.den := by
            rw [h7]
            calc 10 ^ k * q.den ≤ 10 ^ k * (10 ^ 4 * q.num.toNat) :=
              Nat.mul_le_mul_left _ hd4
            _ = q.num.toNat * 10 ^ 4 * 10 ^ k := by ring
          have h5 : 10 ^ k ≤ n * 10 ^ 4 := Nat.le_of_mul_le_mul_right h9 hden1
          have h10 : 10 ^ (k - 4) * 10 ^ 4 ≤ n * 10 ^ 4 := by
            rw [← pow_add, show k - 4 + 4 = k from by omega]
            exact h5
          have h11 : 10 ^ (k - 4) ≤ n := Nat.le_of_mul_le_mul_right h10 (by norm_num)
          have h12 : 10 ^ (k - 4) < 10 ^ L := lt_of_le_of_lt h11 hlub
          have h13 : k - 4 < L := (Nat.pow_lt_pow_iff_right (by norm_num)).mp h12
          omega
    rw [if_neg (by omega)]
    have hmk : ∀ K : ℕ, K = k → mkRat ((n : ℤ)) (10 ^ K) = q := by
      intro K hK
      subst hK
      apply mkRat_pow_eq
      have hsigZ : (n : ℤ) * q.den = (q.num.toNat : ℤ) * 10 ^ k := by exact_mod_cast hsig
      rw [hsigZ, Int.toNat_of_nonneg (by omega)]
    by_cases hdpA : (L : ℤ) - k ≤ 0
    · rw [if_pos hdpA, show (-((L : ℤ) - k)).toNat = k - L from by omega]
      refine ⟨['0'], List.replicate (k - L) '0' ++ ds, by simp, by decide, ?_, ?_, ?_⟩
      · intro c hc
        rcases List.mem_append.mp hc with h | h
        · rw [List.eq_of_mem_replicate h]
          decide
        · exact natDigits_digits n c h
      · refine Or.inr ⟨by simp [natDigits_ne_nil hsig0], rfl⟩
      · unfold secValue
        rw [show digitsToNat ['0'] = 0 from by decide]
        rw [digitsToNat_append, digitsToNat_replicate_zero, natDigits_val]
        simp only [List.length_append, List.length_replicate, zero_mul, zero_add,
          Nat.zero_mul]
        rw [show k - L + ds.length = k from by omega]
        exact hmk k rfl
    · by_cases hdpB : (L : ℤ) - k < L
      · rw [if_neg hdpA, if_pos hdpB, show ((L : ℤ) - k).toNat = L - k from by omega]
        have hkpos : 1 ≤ k := by omega
        have hlt : L - k < L := by omega
        refine ⟨ds.take (L - k), ds.drop (L - k), ?_, ?_, ?_, ?_, ?_⟩
        · have : (ds.take (L - k)).length = L - k := by
            rw [List.length_take]
            omega
          intro hnil
          rw [hnil] at this
          simp at this
          omega
        · intro c hc
          exact natDigits_digits n c (List.mem_of_mem_take hc)
        · intro c hc
          exact natDigits_digits n c (List.mem_of_mem_drop hc)
        · refine Or.inr ⟨?_, rfl⟩
          have : (ds.drop (L - k)).length = k := by
            rw [List.length_drop]
            omega
          intro hnil
          rw [hnil] at this
          simp at this
          omega
        · unfold secValue
          have hsplit : digitsToNat (ds.take (L - k) ++ ds.drop (L - k)) =
              digitsToNat (ds.take (L - k)) * 10 ^ (ds.drop (L - k)).length +
                digitsToNat (ds.drop (L - k)) := digitsToNat_append _ _
          rw [List.take_append_drop, natDigits_val] at hsplit
          rw [← hsplit]
          rw [show (ds.drop (L - k)).length = k from by rw [List.length_drop]; omega]
          exact hmk k rfl
      · have hk0 : k = 0 := by omega
        rw [if_neg hdpA, if_neg hdpB, show ((L : ℤ) - k).toNat - L = 0 from by omega]
        refine ⟨ds, [], natDigits_ne_nil hsig0, natDigits_digits n, by simp,
          Or.inl ⟨rfl, by simp⟩, ?_⟩
        unfold secValue
        simp only [List.length_nil, pow_zero, mul_one, natDigits_val,
          show digitsToNat [] = 0 from rfl, Nat.add_zero]
        have := hmk k rfl
        rw [hk0] at this
        have hds2 : digitsToNat ds = n := natDigits_val n
        rw [hds2]
        simpa using this


/-- The digit group a field renders as: nothing for a zero field, the
decimal digits of the (nonnegative) value otherwise. -/
def gOf (v : ℤ) : Option (List Char) :=
  if v = 0 then none else some (natDigits v.toNat)

/-- The seconds group a seconds field renders as. -/
def gSecOf (q : ℚ) (ip fp : List Char) : Option (List Char × List Char) :=
  if q = 0 then none else some (ip, fp)

theorem seg_nonneg (v : ℤ) (u : Char) (h0 : 0 ≤ v) (hne : v ≠ 0) :
    seg v u = natDigits v.toNat ++ [u] := by
  unfold seg absInt64 renderInt renderNat
  rw [if_neg hne, if_neg (by omega : ¬ v < 0), if_neg (by omega : ¬ v < 0),
    if_neg (by omega : ¬ v.toNat = 0)]

theorem absInt64_negate (v : ℤ) (hl : -(2 ^ 63) < v) (hh : v < 2 ^ 63) :
    absInt64 (-v) = absInt64 v := by
  unfold absInt64 wrap64
  rcases lt_trichotomy v 0 with h | h | h
  · rw [if_neg (by omega), if_pos h]
    omega
  · rw [h]
    norm_num
  · rw [if_pos (by omega), if_neg (by omega)]
    omega

theorem seg_negate (v : ℤ) (u : Char) (hl : -(2 ^ 63) < v) (hh : v < 2 ^ 63) :
    seg (-v) u = seg v u := by
  by_cases hv : v = 0
  · simp [hv]
  · unfold seg
    rw [if_neg (by omega : ¬ -v = 0), if_neg hv, absInt64_negate v hl hh]

theorem segSecs_negate (q : ℚ) : segSecs (-q) = segSecs q := by
  by_cases hq : q = 0
  · simp [hq]
  · unfold segSecs
    rw [if_neg (by simpa using hq), if_neg hq]
    rcases lt_trichotomy q 0 with h | h | h
    · rw [if_neg (not_lt.mpr (by linarith : (0 : ℚ) ≤ -q)), if_pos h]
    · exact absurd h hq
    · rw [if_pos (by linarith : -q < 0), if_neg (not_lt.mpr h.le), neg_neg]

theorem pGroup_step (u : Char) (v : ℤ) (rest : List Char)
    (h0 : 0 ≤ v) (hu : u.isDigit = false)
    (hrest : pGroup u rest = (none, rest)) :
    pGroup u (seg v u ++ rest) = (gOf v, rest) := by
  by_cases hv : v = 0
  · rw [gOf, if_pos hv]
    simp only [hv, seg, if_pos rfl, List.nil_append]
    exact hrest
  · rw [gOf, if_neg hv, seg_nonneg v u h0 hv, List.append_assoc, List.singleton_append]
    exact pGroup_hit u (natDigits v.toNat) rest
      (natDigits_ne_nil (by omega)) (natDigits_digits _) hu

theorem pGroup_inert_seg (u u' : Char) (v : ℤ) (rest : List Char) (h0 : 0 ≤ v)
    (hu' : u'.isDigit = false) (hne : u' ≠ u)
    (hrest : pGroup u rest = (none, rest)) :
    pGroup u (seg v u' ++ rest) = (none, seg v u' ++ rest) := by
  by_cases hv : v = 0
  · simp only [hv, seg, if_pos rfl, List.nil_append]
    exact hrest
  · rw [seg_nonneg v u' h0 hv, List.append_assoc, List.singleton_append]
    exact pGroup_missUnit u (natDigits v.toNat) u' rest
      (natDigits_ne_nil (by omega)) (natDigits_digits _) hu' hne

theorem pGroup_inert_T (u : Char) (s : List Char) :
    pGroup u ('T' :: s) = (none, 'T' :: s) :=
  pGroup_missHead u _ (by
    intro c hc
    simp only [List.head?_cons, Option.some.injEq] at hc
    rw [← hc]
    decide)

theorem pGroup_inert_segSecs (u : Char) (q : ℚ) (ip fp : List Char)
    (hSu : 'S' ≠ u) (hDu : '.' ≠ u) (hq : 0 ≤ q)
    (hsh : q ≠ 0 → ip ≠ [] ∧ (∀ c ∈ ip, c.isDigit = true) ∧ (∀ c ∈ fp, c.isDigit = true) ∧
      ((fp = [] ∧ formatSeconds q = ip) ∨ (fp ≠ [] ∧ formatSeconds q = ip ++ '.' :: fp))) :
    pGroup u (segSecs q) = (none, segSecs q) := by
  by_cases h : q = 0
  · simp [h, segSecs]
    rfl
  · obtain ⟨h1, h2, h3, h4⟩ := hsh h
    unfold segSecs
    rw [if_neg h, if_neg (not_lt.mpr hq)]
    rcases h4 with ⟨hfp, he⟩ | ⟨hfp, he⟩
    · rw [he]
      exact pGroup_missUnit u ip 'S' [] h1 h2 (by decide) hSu
    · rw [he, List.append_assoc, List.cons_append]
      exact pGroup_missUnit u ip '.' (fp ++ ['S']) h1 h2 (by decide) hDu

theorem pSecond_segSecs (q : ℚ) (ip fp : List Char) (hq : 0 ≤ q)
    (hsh : q ≠ 0 → ip ≠ [] ∧ (∀ c ∈ ip, c.isDigit = true) ∧ (∀ c ∈ fp, c.isDigit = true) ∧
      ((fp = [] ∧ formatSeconds q = ip) ∨ (fp ≠ [] ∧ formatSeconds q = ip ++ '.' :: fp))) :
    pSecond (segSecs q) = (gSecOf q ip fp, []) := by
  by_cases h : q = 0
  · rw [gSecOf, if_pos h]
    simp [h, segSecs, pSecond]
  · obtain ⟨h1, h2, h3, h4⟩ := hsh h
    rw [gSecOf, if_neg h]
    unfold segSecs
    rw [if_neg h, if_neg (not_lt.mpr hq)]
    rcases h4 with ⟨hfp, he⟩ | ⟨hfp, he⟩
    · rw [he, hfp]
      exact pSecond_hitInt ip [] h1 h2
    · rw [he, List.append_assoc, List.cons_append]
      exact pSecond_hitFrac ip fp [] h1 hfp h2 h3

theorem matchP_P (s : List Char) : matchP ('P' :: s) = matchAfterP s := rfl

theorem matchDuration_minus (s : List Char) : matchDuration ('-' :: s) = matchP s := rfl

theorem matchDuration_not_minus (c : Char) (s : List Char) (h : c ≠ '-') :
    matchDuration (c :: s) = matchP (c :: s) := by
  unfold matchDuration
  split
  · rename_i heq
    injection heq with h1 h2
    exact absurd h1 h
  · rfl

theorem stepInt_gOf (c : Duration) (v : ℤ) (neg : Bool) (set : Duration → ℤ → Duration)
    (h0 : 0 ≤ v) (h63 : v < 2 ^ 63)
    (hid : v = 0 → set c (if neg then -v else v) = c) :
    stepInt (c, none) (gOf v) neg set = (set c (if neg then -v else v), none) := by
  by_cases hv : v = 0
  · rw [gOf, if_pos hv, hid hv]
    rfl
  · rw [gOf, if_neg hv]
    show stepInt (c, none) (some (natDigits v.toNat)) neg set = _
    unfold stepInt goAtoi
    simp only [natDigits_val]
    rw [if_pos (show v.toNat ≤ 9223372036854775807 by omega)]
    simp only [Int.toNat_of_nonneg h0]

theorem stepSec_gOf (c : Duration) (q : ℚ) (ip fp : List Char) (neg : Bool)
    (hrange : parseFloatRangeErr q = false)
    (hsec : q ≠ 0 → secValue ip fp = q)
    (hid : q = 0 → ({ c with TS := if neg then -q else q } : Duration) = c) :
    stepSec (c, none) (gSecOf q ip fp) neg = ({ c with TS := if neg then -q else q }, none) := by
  by_cases hv : q = 0
  · rw [gSecOf, if_pos hv, hid hv]
    rfl
  · rw [gSecOf, if_neg hv]
    show stepSec (c, none) (some (ip, fp)) neg = _
    unfold stepSec
    simp only [hsec hv, hrange]
    rfl

theorem fillFields_recon (Y M W D TH TM : ℤ) (TS : ℚ) (ip fp : List Char) (neg : Bool)
    (hY0 : 0 ≤ Y) (hY1 : Y < 2 ^ 63) (hM0 : 0 ≤ M) (hM1 : M < 2 ^ 63)
    (hW0 : 0 ≤ W) (hW1 : W < 2 ^ 63) (hD0 : 0 ≤ D) (hD1 : D < 2 ^ 63)
    (hH0 : 0 ≤ TH) (hH1 : TH < 2 ^ 63) (hm0 : 0 ≤ TM) (hm1 : TM < 2 ^ 63)
    (hrange : parseFloatRangeErr TS = false)
    (hsec : TS ≠ 0 → secValue ip fp = TS) :
    fillFields ⟨gOf Y, gOf M, gOf W, gOf D, gOf TH, gOf TM, gSecOf TS ip fp⟩ neg =
      (if neg then Duration.Negate ⟨Y, M, W, D, TH, TM, TS⟩ else ⟨Y, M, W, D, TH, TM, TS⟩,
        none) := by
  simp only [fillFields]
  rw [stepInt_gOf _ _ _ _ hY0 hY1 (by intro h; subst h; cases neg <;> rfl)]
  rw [stepInt_gOf _ _ _ _ hM0 hM1 (by intro h; subst h; cases neg <;> rfl)]
  rw [stepInt_gOf _ _ _ _ hW0 hW1 (by intro h; subst h; cases neg <;> rfl)]
  rw [stepInt_gOf _ _ _ _ hD0 hD1 (by intro h; subst h; cases neg <;> rfl)]
  rw [stepInt_gOf _ _ _ _ hH0 hH1 (by intro h; subst h; cases neg <;> rfl)]
  rw [stepInt_gOf _ _ _ _ hm0 hm1 (by intro h; subst h; cases neg <;> rfl)]
  rw [stepSec_gOf _ _ ip fp _ hrange hsec (by intro h; subst h; cases neg <;> rfl)]
  cases neg <;> simp [Duration.Negate]

theorem pGroup_inert_nil (u : Char) : pGroup u [] = (none, []) := rfl

theorem matchAfterP_body (d : Duration) (ip fp : List Char)
    (hY0 : 0 ≤ d.Y) (hM0 : 0 ≤ d.M) (hW0 : 0 ≤ d.W) (hD0 : 0 ≤ d.D)
    (hH0 : 0 ≤ d.TH) (hm0 : 0 ≤ d.TM) (hS0 : 0 ≤ d.TS)
    (hsh : d.TS ≠ 0 → ip ≠ [] ∧ (∀ c ∈ ip, c.isDigit = true) ∧ (∀ c ∈ fp, c.isDigit = true) ∧
      ((fp = [] ∧ formatSeconds d.TS = ip) ∨ (fp ≠ [] ∧ formatSeconds d.TS = ip ++ '.' :: fp))) :
    matchAfterP (seg d.Y 'Y' ++ (seg d.M 'M' ++ (seg d.W 'W' ++ (seg d.D 'D' ++
        (if d.HasTimePart then 'T' :: (seg d.TH 'H' ++ (seg d.TM 'M' ++ segSecs d.TS))
          else []))))) =
      some ⟨gOf d.Y, gOf d.M, gOf d.W, gOf d.D, gOf d.TH, gOf d.TM, gSecOf d.TS ip fp⟩ := by
  by_cases ht : d.HasTimePart
  · rw [if_pos ht]
    have hsec : pSecond (segSecs d.TS) = (gSecOf d.TS ip fp, []) :=
      pSecond_segSecs d.TS ip fp hS0 hsh
    have h6 : pGroup 'M' (seg d.TM 'M' ++ segSecs d.TS) = (gOf d.TM, segSecs d.TS) :=
      pGroup_step 'M' d.TM _ hm0 (by decide)
        (pGroup_inert_segSecs 'M' d.TS ip fp (by decide) (by decide) hS0 hsh)
    have h5 : pGroup 'H' (seg d.TH 'H' ++ (seg d.TM 'M' ++ segSecs d.TS)) =
        (gOf d.TH, seg d.TM 'M' ++ segSecs d.TS) :=
      pGroup_step 'H' d.TH _ hH0 (by decide)
        (pGroup_inert_seg 'H' 'M' d.TM _ hm0 (by decide) (by decide)
          (pGroup_inert_segSecs 'H' d.TS ip fp (by decide) (by decide) hS0 hsh))
    have h4 : pGroup 'D' (seg d.D 'D' ++
        ('T' :: (seg d.TH 'H' ++ (seg d.TM 'M' ++ segSecs d.TS)))) =
        (gOf d.D, 'T' :: (seg d.TH 'H' ++ (seg d.TM 'M' ++ segSecs d.TS))) :=
      pGroup_step 'D' d.D _ hD0 (by decide) (pGroup_inert_T 'D' _)
    have h3 : pGroup 'W' (seg d.W 'W' ++ (seg d.D 'D' ++
        ('T' :: (seg d.TH 'H' ++ (seg d.TM 'M' ++ segSecs d.TS))))) =
        (gOf d.W, seg d.D 'D' ++
          ('T' :: (seg d.TH 'H' ++ (seg d.TM 'M' ++ segSecs d.TS)))) :=
      pGroup_step 'W' d.W _ hW0 (by decide)
        (pGroup_inert_seg 'W' 'D' d.D _ hD0 (by decide) (by decide) (pGroup_inert_T 'W' _))
    have h2 : pGroup 'M' (seg d.M 'M' ++ (seg d.W 'W' ++ (seg d.D 'D' ++
        ('T' :: (seg d.TH 'H' ++ (seg d.TM 'M' ++ segSecs d.TS)))))) =
        (gOf d.M, seg d.W 'W' ++ (seg d.D 'D' ++
          ('T' :: (seg d.TH 'H' ++ (seg d.TM 'M' ++ segSecs d.TS))))) :=
      pGroup_step 'M' d.M _ hM0 (by decide)
        (pGroup_inert_seg 'M' 'W' d.W _ hW0 (by decide) (by decide)
          (pGroup_inert_seg 'M' 'D' d.D _ hD0 (by decide) (by decide)
            (pGroup_inert_T 'M' _)))
    have h1 : pGroup 'Y' (seg d.Y 'Y' ++ (seg d.M 'M' ++ (seg d.W 'W' ++ (seg d.D 'D' ++
        ('T' :: (seg d.TH 'H' ++ (seg d.TM 'M' ++ segSecs d.TS))))))) =
        (gOf d.Y, seg d.M 'M' ++ (seg d.W 'W' ++ (seg d.D 'D' ++
          ('T' :: (seg d.TH 'H' ++ (seg d.TM 'M' ++ segSecs d.TS)))))) :=
      pGroup_step 'Y' d.Y _ hY0 (by decide)
        (pGroup_inert_seg 'Y' 'M' d.M _ hM0 (by decide) (by decide)
          (pGroup_inert_seg 'Y' 'W' d.W _ hW0 (by decide) (by decide)
            (pGroup_inert_seg 'Y' 'D' d.D _ hD0 (by decide) (by decide)
              (pGroup_inert_T 'Y' _))))
    unfold matchAfterP
    simp only [h1, h2, h3, h4, h5, h6, hsec]
    exact if_pos trivial
  · rw [if_neg ht]
    have hz : d.TH = 0 ∧ d.TM = 0 ∧ d.TS = 0 := by
      unfold Duration.HasTimePart at ht
      simpa using ht
    have h4 : pGroup 'D' (seg d.D 'D' ++ []) = (gOf d.D, []) :=
      pGroup_step 'D' d.D _ hD0 (by decide) rfl
    have h3 : pGroup 'W' (seg d.W 'W' ++ (seg d.D 'D' ++ [])) =
        (gOf d.W, seg d.D 'D' ++ []) :=
      pGroup_step 'W' d.W _ hW0 (by decide)
        (pGroup_inert_seg 'W' 'D' d.D _ hD0 (by decide) (by decide) rfl)
    have h2 : pGroup 'M' (seg d.M 'M' ++ (seg d.W 'W' ++ (seg d.D 'D' ++ []))) =
        (gOf d.M, seg d.W 'W' ++ (seg d.D 'D' ++ [])) :=
      pGroup_step 'M' d.M _ hM0 (by decide)
        (pGroup_inert_seg 'M' 'W' d.W _ hW0 (by decide) (by decide)
          (pGroup_inert_seg 'M' 'D' d.D _ hD0 (by decide) (by decide) rfl))
    have h1 : pGroup 'Y' (seg d.Y 'Y' ++ (seg d.M 'M' ++ (seg d.W 'W' ++
        (seg d.D 'D' ++ [])))) =
        (gOf d.Y, seg d.M 'M' ++ (seg d.W 'W' ++ (seg d.D 'D' ++ []))) :=
      pGroup_step 'Y' d.Y _ hY0 (by decide)
        (pGroup_inert_seg 'Y' 'M' d.M _ hM0 (by decide) (by decide)
          (pGroup_inert_seg 'Y' 'W' d.W _ hW0 (by decide) (by decide)
            (pGroup_inert_seg 'Y' 'D' d.D _ hD0 (by decide) (by decide) rfl)))
    unfold matchAfterP
    simp only [h1, h2, h3, h4]
    simp only [Option.some.injEq, RawGroups.mk.injEq]
    refine ⟨trivial, trivial, trivial, trivial, ?_, ?_, ?_⟩
    · rw [hz.1]
      rfl
    · rw [hz.2.1]
      rfl
    · rw [hz.2.2]
      rfl

theorem parse_renderDur_pos (d : Duration) (ip fp : List Char)
    (hY0 : 0 ≤ d.Y) (hY1 : d.Y < 2 ^ 63) (hM0 : 0 ≤ d.M) (hM1 : d.M < 2 ^ 63)
    (hW0 : 0 ≤ d.W) (hW1 : d.W < 2 ^ 63) (hD0 : 0 ≤ d.D) (hD1 : d.D < 2 ^ 63)
    (hH0 : 0 ≤ d.TH) (hH1 : d.TH < 2 ^ 63) (hm0 : 0 ≤ d.TM) (hm1 : d.TM < 2 ^ 63)
    (hS0 : 0 ≤ d.TS) (hrange : parseFloatRangeErr d.TS = false)
    (hsh : d.TS ≠ 0 → ip ≠ [] ∧ (∀ c ∈ ip, c.isDigit = true) ∧ (∀ c ∈ fp, c.isDigit = true) ∧
      ((fp = [] ∧ formatSeconds d.TS = ip) ∨ (fp ≠ [] ∧ formatSeconds d.TS = ip ++ '.' :: fp)))
    (hsec : d.TS ≠ 0 → secValue ip fp = d.TS) :
    ParseISO8601 (renderDur d) = (d, none) := by
  have hIsNeg : d.IsNegative = false := by
    unfold Duration.IsNegative
    simp only [decide_eq_false_iff_not]
    push_neg
    exact ⟨hY0, hM0, hW0, hD0, hH0, hm0, hS0⟩
  have hrd : renderDur d = 'P' :: (seg d.Y 'Y' ++ (seg d.M 'M' ++ (seg d.W 'W' ++
      (seg d.D 'D' ++ (if d.HasTimePart then
        'T' :: (seg d.TH 'H' ++ (seg d.TM 'M' ++ segSecs d.TS)) else []))))) := by
    unfold renderDur
    rw [hIsNeg]
    simp only [Bool.false_eq_true, if_false, List.nil_append, List.append_assoc]
  have hmain := matchAfterP_body d ip fp hY0 hM0 hW0 hD0 hH0 hm0 hS0 hsh
  have hrec := fillFields_recon d.Y d.M d.W d.D d.TH d.TM d.TS ip fp false
    hY0 hY1 hM0 hM1 hW0 hW1 hD0 hD1 hH0 hH1 hm0 hm1 hrange hsec
  unfold ParseISO8601
  rw [hrd, matchDuration_not_minus 'P' _ (by decide), matchP_P]
  simp only [hmain, List.head?_cons]
  rw [show decide ((some 'P' : Option Char) = some '-') = false from by decide]
  rw [hrec]
  simp only [Bool.false_eq_true, if_false]

theorem secValue_nonneg (ip fp : List Char) : 0 ≤ secValue ip fp := by
  unfold secValue
  rw [Rat.mkRat_eq_div]
  positivity

theorem mkRat_den_dvd (a : ℤ) (b : ℕ) : ((mkRat a b).den : ℕ) ∣ b := by
  have h := Rat.den_dvd a (b : ℤ)
  rw [← Rat.mkRat_eq_divInt] at h
  exact_mod_cast h

theorem secValue_den_dvd (ip fp : List Char) :
    ∃ L, ((secValue ip fp).den : ℕ) ∣ 10 ^ L :=
  ⟨fp.length, mkRat_den_dvd _ _⟩

theorem rangeErr_false_lt {q : ℚ} (h : parseFloatRangeErr q = false) :
    q < ((floatOverflowBound : ℤ) : ℚ) := by
  unfold parseFloatRangeErr at h
  rw [decide_eq_false_iff_not] at h
  exact not_le.mp h

theorem stepInt_snd_none {cur : Duration × Option ParseErr} {g : Option (List Char)}
    {neg : Bool} {set : Duration → ℤ → Duration}
    (h : (stepInt cur g neg set).2 = none) : cur.2 = none := by
  rcases cur with ⟨c, e⟩
  cases e with
  | none => rfl
  | some e' => exact Option.noConfusion h

theorem stepSec_snd_none {cur : Duration × Option ParseErr}
    {g : Option (List Char × List Char)} {neg : Bool}
    (h : (stepSec cur g neg).2 = none) : cur.2 = none := by
  rcases cur with ⟨c, e⟩
  cases e with
  | none => rfl
  | some e' => exact Option.noConfusion h

theorem stepInt_succ {c : Duration} {g : Option (List Char)} {neg : Bool}
    {set : Duration → ℤ → Duration} {d' : Duration}
    (h : stepInt (c, none) g neg set = (d', none)) :
    d' = c ∨ ∃ v : ℤ, 0 ≤ v ∧ v < 2 ^ 63 ∧ d' = set c (if neg then -v else v) := by
  cases g with
  | none =>
    have h' : ((c, none) : Duration × Option ParseErr) = (d', none) := h
    exact Or.inl ((Prod.mk.injEq _ _ _ _).mp h').1.symm
  | some ds =>
    simp only [stepInt] at h
    rcases hA : goAtoi ds with _ | v
    · rw [hA] at h
      simp at h
    · rw [hA] at h
      right
      have hv : 0 ≤ v ∧ v ≤ 9223372036854775807 := by
        have hA' : (if digitsToNat ds ≤ 9223372036854775807 then
            some ((digitsToNat ds : ℕ) : ℤ) else none) = some v := hA
        split at hA'
        · rename_i hle
          obtain rfl := (Option.some.injEq _ _).mp hA'
          exact ⟨Int.natCast_nonneg _, by exact_mod_cast hle⟩
        · exact Option.noConfusion hA' 
      exact ⟨v, hv.1, by omega, ((Prod.mk.injEq _ _ _ _).mp h).1.symm⟩

theorem stepSec_succ {c : Duration} {g : Option (List Char × List Char)} {neg : Bool}
    {d' : Duration} (h : stepSec (c, none) g neg = (d', none)) :
    d' = c ∨ ∃ q : ℚ, 0 ≤ q ∧ parseFloatRangeErr q = false ∧
      (∃ L, (q.den : ℕ) ∣ 10 ^ L) ∧ d' = { c with TS := if neg then -q else q } := by
  cases g with
  | none =>
    have h' : ((c, none) : Duration × Option ParseErr) = (d', none) := h
    exact Or.inl ((Prod.mk.injEq _ _ _ _).mp h').1.symm
  | some p =>
    rcases p with ⟨ip, fp⟩
    simp only [stepSec] at h
    cases hR : parseFloatRangeErr (secValue ip fp)
    · rw [hR] at h
      simp only [Bool.false_eq_true, if_false] at h
      exact Or.inr ⟨secValue ip fp, secValue_nonneg ip fp, hR, secValue_den_dvd ip fp,
        ((Prod.mk.injEq _ _ _ _).mp h).1.symm⟩
    · rw [hR] at h
      simp at h

theorem stepInt_chain (P : Duration → Prop) {cur : Duration × Option ParseErr}
    {g : Option (List Char)} {neg : Bool} {set : Duration → ℤ → Duration} {d' : Duration}
    (h : stepInt cur g neg set = (d', none))
    (hcur : ∀ c, cur = (c, none) → P c)
    (hset : ∀ c v, P c → 0 ≤ v → v < 2 ^ 63 → P (set c (if neg then -v else v))) :
    P d' := by
  have h2 : cur.2 = none := stepInt_snd_none (by rw [h])
  have hcc : cur = (cur.1, none) := by rw [← h2]
  have hP : P cur.1 := hcur cur.1 hcc
  rw [hcc] at h
  rcases stepInt_succ h with he | ⟨v, h0, h63, he⟩
  · rw [he]
    exact hP
  · rw [he]
    exact hset _ v hP h0 h63

theorem stepSec_chain (P : Duration → Prop) {cur : Duration × Option ParseErr}
    {g : Option (List Char × List Char)} {neg : Bool} {d' : Duration}
    (h : stepSec cur g neg = (d', none))
    (hcur : ∀ c, cur = (c, none) → P c)
    (hset : ∀ c q, P c → 0 ≤ q → parseFloatRangeErr q = false →
      (∃ L, (q.den : ℕ) ∣ 10 ^ L) → P { c with TS := if neg then -q else q }) :
    P d' := by
  have h2 : cur.2 = none := stepSec_snd_none (by rw [h])
  have hcc : cur = (cur.1, none) := by rw [← h2]
  have hP : P cur.1 := hcur cur.1 hcc
  rw [hcc] at h
  rcases stepSec_succ h with he | ⟨q, h0, hR, hdvd, he⟩
  · rw [he]
    exact hP
  · rw [he]
    exact hset _ q hP h0 hR hdvd

/-- Range and sign invariant of the integer fields of a parsed Duration. -/
def intInv (neg : Bool) (v : ℤ) : Prop :=
  if neg then -(2 ^ 63) < v ∧ v ≤ 0 else 0 ≤ v ∧ v < 2 ^ 63

/-- Range, sign and finite-decimal invariant of the seconds field of a
parsed Duration. -/
def tsInv (neg : Bool) (q : ℚ) : Prop :=
  (if neg then -(((floatOverflowBound : ℤ) : ℚ)) < q ∧ q ≤ 0
    else 0 ≤ q ∧ q < ((floatOverflowBound : ℤ) : ℚ)) ∧
  ∃ L, (q.den : ℕ) ∣ 10 ^ L

/-- Invariant satisfied by every Duration produced by a successful parse
with sign flag `neg`. -/
def parsedInv (neg : Bool) (d : Duration) : Prop :=
  intInv neg d.Y ∧ intInv neg d.M ∧ intInv neg d.W ∧ intInv neg d.D ∧
    intInv neg d.TH ∧ intInv neg d.TM ∧ tsInv neg d.TS

theorem parsedInv_zero (neg : Bool) : parsedInv neg Duration.zero := by
  have hbz : (0 : ℤ) < floatOverflowBound := by decide
  have hb : (0 : ℚ) < ((floatOverflowBound : ℤ) : ℚ) := by exact_mod_cast hbz
  have hz : ∀ v : ℤ, v = 0 → intInv neg v := by
    intro v hv
    subst hv
    unfold intInv
    cases neg <;> norm_num
  have ht : tsInv neg 0 := by
    unfold tsInv
    refine ⟨?_, 0, by decide⟩
    cases neg
    · exact ⟨le_refl 0, hb⟩
    · exact ⟨by linarith, le_refl 0⟩
  exact ⟨hz _ rfl, hz _ rfl, hz _ rfl, hz _ rfl, hz _ rfl, hz _ rfl, ht⟩

theorem fillFields_inv {g : RawGroups} {neg : Bool} {d : Duration}
    (h : fillFields g neg = (d, none)) : parsedInv neg d := by
  have hint : ∀ v : ℤ, 0 ≤ v → v < 2 ^ 63 → intInv neg (if neg then -v else v) := by
    intro v h0 h63
    unfold intInv
    cases neg
    · exact ⟨h0, h63⟩
    · exact ⟨show -(2 ^ 63) < -v by omega, show -v ≤ 0 by omega⟩
  simp only [fillFields] at h
  refine stepSec_chain (parsedInv neg) h ?_ ?_
  · intro c6 hc6
    refine stepInt_chain (parsedInv neg) hc6 ?_ ?_
    · intro c5 hc5
      refine stepInt_chain (parsedInv neg) hc5 ?_ ?_
      · intro c4 hc4
        refine stepInt_chain (parsedInv neg) hc4 ?_ ?_
        · intro c3 hc3
          refine stepInt_chain (parsedInv neg) hc3 ?_ ?_
          · intro c2 hc2
            refine stepInt_chain (parsedInv neg) hc2 ?_ ?_
            · intro c1 hc1
              refine stepInt_chain (parsedInv neg) hc1 ?_ ?_
              · intro c0 hc0
                have he : c0 = Duration.zero :=
                  (((Prod.mk.injEq _ _ _ _).mp hc0).1).symm
                rw [he]
                exact parsedInv_zero neg
              · intro c v hc h0 h63
                exact ⟨hint v h0 h63, hc.2.1, hc.2.2.1, hc.2.2.2.1,
                  hc.2.2.2.2.1, hc.2.2.2.2.2.1, hc.2.2.2.2.2.2⟩
            · intro c v hc h0 h63
              exact ⟨hc.1, hint v h0 h63, hc.2.2.1, hc.2.2.2.1,
                hc.2.2.2.2.1, hc.2.2.2.2.2.1, hc.2.2.2.2.2.2⟩
          · intro c v hc h0 h63
            exact ⟨hc.1, hc.2.1, hint v h0 h63, hc.2.2.2.1,
              hc.2.2.2.2.1, hc.2.2.2.2.2.1, hc.2.2.2.2.2.2⟩
        · intro c v hc h0 h63
          exact ⟨hc.1, hc.2.1, hc.2.2.1, hint v h0 h63,
            hc.2.2.2.2.1, hc.2.2.2.2.2.1, hc.2.2.2.2.2.2⟩
      · intro c v hc h0 h63
        exact ⟨hc.1, hc.2.1, hc.2.2.1, hc.2.2.2.1,
          hint v h0 h63, hc.2.2.2.2.2.1, hc.2.2.2.2.2.2⟩
    · intro c v hc h0 h63
      exact ⟨hc.1, hc.2.1, hc.2.2.1, hc.2.2.2.1,
        hc.2.2.2.2.1, hint v h0 h63, hc.2.2.2.2.2.2⟩
  · intro c q hc h0 hR hdvd
    refine ⟨hc.1, hc.2.1, hc.2.2.1, hc.2.2.2.1, hc.2.2.2.2.1, hc.2.2.2.2.2.1, ?_⟩
    unfold tsInv
    cases neg
    · exact ⟨⟨h0, rangeErr_false_lt hR⟩, hdvd⟩
    · have hlt := rangeErr_false_lt hR
      refine ⟨⟨show -(((floatOverflowBound : ℤ) : ℚ)) < -q by linarith,
        show -q ≤ 0 by linarith⟩, ?_⟩
      obtain ⟨L, hL⟩ := hdvd
      exact ⟨L, show ((-q).den : ℕ) ∣ 10 ^ L by rwa [Rat.neg_den]⟩

theorem parse_success_inv {s : List Char} {d : Duration}
    (h : ParseISO8601 s = (d, none)) :
    parsedInv (decide (s.head? = some '-')) d := by
  unfold ParseISO8601 at h
  rcases hm : matchDuration s with _ | g
  · rw [hm] at h
    simp at h
  · rw [hm] at h
    exact fillFields_inv h

theorem durString_eq (d : Duration) :
    durString d = if d.IsZero then "P0D".toList else renderDur d := by
  unfold durString
  rw [tmplExecute_eq_renderDur]

theorem isZero_eq {d : Duration} (h : d.IsZero = true) : d = Duration.zero := by
  unfold Duration.IsZero at h
  simp only [decide_eq_true_eq] at h
  obtain ⟨h1, h2, h3, h4, h5, h6, h7⟩ := h
  cases d
  simp_all [Duration.zero]

theorem negate_negate (d : Duration) : d.Negate.Negate = d := by
  cases d
  simp [Duration.Negate]

theorem hasTimePart_negate (d : Duration) :
    d.Negate.HasTimePart = d.HasTimePart := by
  unfold Duration.HasTimePart Duration.Negate
  simp [neg_eq_zero]

theorem renderDur_negate (d : Duration)
    (hY0 : d.Y ≤ 0) (hY1 : -(2 ^ 63) < d.Y) (hM0 : d.M ≤ 0) (hM1 : -(2 ^ 63) < d.M)
    (hW0 : d.W ≤ 0) (hW1 : -(2 ^ 63) < d.W) (hD0 : d.D ≤ 0) (hD1 : -(2 ^ 63) < d.D)
    (hH0 : d.TH ≤ 0) (hH1 : -(2 ^ 63) < d.TH) (hm0 : d.TM ≤ 0) (hm1 : -(2 ^ 63) < d.TM)
    (hS0 : d.TS ≤ 0) (hnz : d.IsZero = false) :
    renderDur d = '-' :: renderDur d.Negate := by
  have hneg : d.IsNegative = true := by
    unfold Duration.IsNegative
    unfold Duration.IsZero at hnz
    simp only [decide_eq_false_iff_not] at hnz
    simp only [decide_eq_true_eq]
    by_contra hc
    push_neg at hc
    obtain ⟨n1, n2, n3, n4, n5, n6, n7⟩ := hc
    exact hnz ⟨le_antisymm hY0 n1, le_antisymm hM0 n2, le_antisymm hW0 n3,
      le_antisymm hD0 n4, le_antisymm hH0 n5, le_antisymm hm0 n6, le_antisymm hS0 n7⟩
  have hnegN : d.Negate.IsNegative = false := by
    unfold Duration.IsNegative Duration.Negate
    simp only [decide_eq_false_iff_not]
    push_neg
    refine ⟨by omega, by omega, by omega, by omega, by omega, by omega, by linarith⟩
  have e1 : seg d.Negate.Y 'Y' = seg d.Y 'Y' := seg_negate d.Y 'Y' hY1 (by omega)
  have e2 : seg d.Negate.M 'M' = seg d.M 'M' := seg_negate d.M 'M' hM1 (by omega)
  have e3 : seg d.Negate.W 'W' = seg d.W 'W' := seg_negate d.W 'W' hW1 (by omega)
  have e4 : seg d.Negate.D 'D' = seg d.D 'D' := seg_negate d.D 'D' hD1 (by omega)
  have e5 : seg d.Negate.TH 'H' = seg d.TH 'H' := seg_negate d.TH 'H' hH1 (by omega)
  have e6 : seg d.Negate.TM 'M' = seg d.TM 'M' := seg_negate d.TM 'M' hm1 (by omega)
  have e7 : segSecs d.Negate.TS = segSecs d.TS := segSecs_negate d.TS
  unfold renderDur
  rw [hneg, hnegN, hasTimePart_negate, e1, e2, e3, e4, e5, e6, e7]
  simp

theorem pair_eta {α β : Type} {p : α × Option β} (h : p.2 = none) : p = (p.1, none) := by
  rw [← h]

theorem stepInt_neg {c : Duration} {g : Option (List Char)}
    {set : Duration → ℤ → Duration} {d' : Duration}
    (hset : ∀ x v, set x.Negate (-v) = (set x v).Negate)
    (h : stepInt (c, none) g false set = (d', none)) :
    stepInt (c.Negate, none) g true set = (d'.Negate, none) := by
  cases g with
  | none =>
    have h' : ((c, none) : Duration × Option ParseErr) = (d', none) := h
    obtain rfl : d' = c := ((Prod.mk.injEq _ _ _ _).mp h').1.symm
    rfl
  | some ds =>
    simp only [stepInt] at h ⊢
    rcases hA : goAtoi ds with _ | v
    · rw [hA] at h
      simp at h
    · rw [hA] at h
      have hd : d' = set c v := ((Prod.mk.injEq _ _ _ _).mp h).1.symm
      show (set c.Negate (-v), none) = (d'.Negate, none)
      rw [hd, hset c v]

theorem stepSec_neg {c : Duration} {g : Option (List Char × List Char)} {d' : Duration}
    (h : stepSec (c, none) g false = (d', none)) :
    stepSec (c.Negate, none) g true = (d'.Negate, none) := by
  cases g with
  | none =>
    have h' : ((c, none) : Duration × Option ParseErr) = (d', none) := h
    obtain rfl : d' = c := ((Prod.mk.injEq _ _ _ _).mp h').1.symm
    rfl
  | some p =>
    rcases p with ⟨ip, fp⟩
    simp only [stepSec] at h ⊢
    cases hR : parseFloatRangeErr (secValue ip fp)
    · rw [hR] at h
      simp only [Bool.false_eq_true, if_false] at h
      have hd : d' = { c with TS := secValue ip fp } :=
        ((Prod.mk.injEq _ _ _ _).mp h).1.symm
      show (({ c.Negate with TS := -secValue ip fp } : Duration), (none : Option ParseErr)) =
        (d'.Negate, none)
      rw [hd]
      rfl
    · rw [hR] at h
      simp at h

theorem fillFields_neg {g : RawGroups} {d : Duration}
    (h : fillFields g false = (d, none)) :
    fillFields g true = (d.Negate, none) := by
  simp only [fillFields] at h ⊢
  have n6 := stepSec_snd_none (congrArg Prod.snd h)
  have e6 := pair_eta n6
  have n5 := stepInt_snd_none n6
  have e5 := pair_eta n5
  have n4 := stepInt_snd_none n5
  have e4 := pair_eta n4
  have n3 := stepInt_snd_none n4
  have e3 := pair_eta n3
  have n2 := stepInt_snd_none n3
  have e2 := pair_eta n2
  have n1 := stepInt_snd_none n2
  have e1 := pair_eta n1
  rw [e1] at e2 e3 e4 e5 e6 h
  rw [e2] at e3 e4 e5 e6 h
  rw [e3] at e4 e5 e6 h
  rw [e4] at e5 e6 h
  rw [e5] at e6 h
  rw [e6] at h
  have N1 := stepInt_neg (fun x v => rfl) e1
  have N2 := stepInt_neg (fun x v => rfl) e2
  have N3 := stepInt_neg (fun x v => rfl) e3
  have N4 := stepInt_neg (fun x v => rfl) e4
  have N5 := stepInt_neg (fun x v => rfl) e5
  have N6 := stepInt_neg (fun x v => rfl) e6
  have N7 := stepSec_neg h
  have hz : Duration.zero.Negate = Duration.zero := rfl
  rw [hz] at N1
  rw [N1, N2, N3, N4, N5, N6]
  exact N7

theorem parse_neg {s : List Char} {d : Duration} (hhead : s.head? ≠ some '-')
    (h : ParseISO8601 s = (d, none)) :
    ParseISO8601 ('-' :: s) = (d.Negate, none) := by
  unfold ParseISO8601 at h ⊢
  rw [matchDuration_minus]
  have hmds : matchDuration s = matchP s := by
    cases s with
    | nil => rfl
    | cons c t =>
      refine matchDuration_not_minus c t ?_
      intro hc
      refine hhead ?_
      rw [hc]
      rfl
  rw [hmds] at h
  rcases hm : matchP s with _ | g
  · rw [hm] at h
    simp at h
  · simp only [hm] at h ⊢
    have hflag : decide (s.head? = some '-') = false := decide_eq_false hhead
    rw [hflag] at h
    have hflag2 : decide (('-' :: s).head? = some '-') = true := by simp
    rw [hflag2]
    exact fillFields_neg h

theorem isNegative_false_of_nonneg {e : Duration} (h1 : 0 ≤ e.Y) (h2 : 0 ≤ e.M)
    (h3 : 0 ≤ e.W) (h4 : 0 ≤ e.D) (h5 : 0 ≤ e.TH) (h6 : 0 ≤ e.TM) (h7 : 0 ≤ e.TS) :
    e.IsNegative = false := by
  unfold Duration.IsNegative
  simp only [decide_eq_false_iff_not]
  push_neg
  exact ⟨h1, h2, h3, h4, h5, h6, h7⟩

theorem renderDur_pos_eq {e : Duration} (h : e.IsNegative = false) :
    renderDur e = 'P' :: (seg e.Y 'Y' ++ seg e.M 'M' ++ seg e.W 'W' ++ seg e.D 'D' ++
      (if e.HasTimePart then 'T' :: (seg e.TH 'H' ++ seg e.TM 'M' ++ segSecs e.TS)
        else [])) := by
  unfold renderDur
  rw [h]
  simp only [Bool.false_eq_true, if_false, List.nil_append]

/-- Claim C1 as amended: a successfully parsed Duration round-trips through
`String` and back, provided its seconds field is in the range where `%g`
uses positional notation (magnitude below 10^21, and either integral or at
least 10^-4).  Outside that range `String` prints the seconds in scientific
notation, which the parse grammar rejects (see the counterexample). -/
theorem C1_parse_format_roundtrip (s : List Char) (d : Duration)
    (h : ParseISO8601 s = (d, none)) (hg : goodTS d.TS) :
    ParseISO8601 (durString d) = (d, none) := by
  have hinv := parse_success_inv h
  by_cases hz : d.IsZero = true
  · have hd := isZero_eq hz
    subst hd
    decide
  · have hz' : d.IsZero = false := by
      cases hzz : d.IsZero
      · rfl
      · exact absurd hzz hz
    rw [durString_eq, if_neg hz]
    cases hbv : decide (s.head? = some '-')
    · rw [hbv] at hinv
      obtain ⟨hY, hM, hW, hD, hTH, hTM, hTS⟩ := hinv
      have hY' : 0 ≤ d.Y ∧ d.Y < 2 ^ 63 := hY
      have hM' : 0 ≤ d.M ∧ d.M < 2 ^ 63 := hM
      have hW' : 0 ≤ d.W ∧ d.W < 2 ^ 63 := hW
      have hD' : 0 ≤ d.D ∧ d.D < 2 ^ 63 := hD
      have hTH' : 0 ≤ d.TH ∧ d.TH < 2 ^ 63 := hTH
      have hTM' : 0 ≤ d.TM ∧ d.TM < 2 ^ 63 := hTM
      have hTS' : (0 ≤ d.TS ∧ d.TS < ((floatOverflowBound : ℤ) : ℚ)) ∧
          ∃ L, (d.TS.den : ℕ) ∣ 10 ^ L := hTS
      have hrange : parseFloatRangeErr d.TS = false :=
        decide_eq_false (not_le.mpr hTS'.1.2)
      by_cases hts : d.TS = 0
      · exact parse_renderDur_pos d [] [] hY'.1 hY'.2 hM'.1 hM'.2 hW'.1 hW'.2
          hD'.1 hD'.2 hTH'.1 hTH'.2 hTM'.1 hTM'.2 hTS'.1.1 hrange
          (fun hh => (hh hts).elim) (fun hh => (hh hts).elim)
      · have hpos : 0 < d.TS := lt_of_le_of_ne hTS'.1.1 (Ne.symm hts)
        have h21 : d.TS < (1000000000000000000000 : ℚ) := hg.2.1
        have hlow : d.TS.den = 1 ∨ mkRat 1 10000 ≤ d.TS := by
          rcases hg.2.2 with h1 | h1 | h1
          · exact Or.inl h1
          · exfalso
            have hmk : (0 : ℚ) < mkRat 1 10000 := by decide
            linarith
          · exact Or.inr h1
        obtain ⟨ip, fp, hne, hipd, hfpd, hform, hval⟩ :=
          formatSeconds_shape d.TS hpos h21 hlow hTS'.2
        exact parse_renderDur_pos d ip fp hY'.1 hY'.2 hM'.1 hM'.2 hW'.1 hW'.2
          hD'.1 hD'.2 hTH'.1 hTH'.2 hTM'.1 hTM'.2 hTS'.1.1 hrange
          (fun _ => ⟨hne, hipd, hfpd, hform⟩) (fun _ => hval)
    · rw [hbv] at hinv
      obtain ⟨hY, hM, hW, hD, hTH, hTM, hTS⟩ := hinv
      have hY' : -(2 ^ 63) < d.Y ∧ d.Y ≤ 0 := hY
      have hM' : -(2 ^ 63) < d.M ∧ d.M ≤ 0 := hM
      have hW' : -(2 ^ 63) < d.W ∧ d.W ≤ 0 := hW
      have hD' : -(2 ^ 63) < d.D ∧ d.D ≤ 0 := hD
      have hTH' : -(2 ^ 63) < d.TH ∧ d.TH ≤ 0 := hTH
      have hTM' : -(2 ^ 63) < d.TM ∧ d.TM ≤ 0 := hTM
      have hTS' : (-(((floatOverflowBound : ℤ) : ℚ)) < d.TS ∧ d.TS ≤ 0) ∧
          ∃ L, (d.TS.den : ℕ) ∣ 10 ^ L := hTS
      have hrd : renderDur d = '-' :: renderDur d.Negate :=
        renderDur_negate d hY'.2 hY'.1 hM'.2 hM'.1 hW'.2 hW'.1 hD'.2 hD'.1
          hTH'.2 hTH'.1 hTM'.2 hTM'.1 hTS'.1.2 hz'
      have hrangeN : parseFloatRangeErr d.Negate.TS = false := by
        refine decide_eq_false (not_le.mpr ?_)
        show (-d.TS : ℚ) < ((floatOverflowBound : ℤ) : ℚ)
        linarith [hTS'.1.1]
      have hcore : ParseISO8601 (renderDur d.Negate) = (d.Negate, none) := by
        by_cases hts : d.TS = 0
        · have htsN : d.Negate.TS = 0 := neg_eq_zero.mpr hts
          exact parse_renderDur_pos d.Negate [] []
            (show (0 : ℤ) ≤ -d.Y by omega) (show (-d.Y : ℤ) < 2 ^ 63 by omega)
            (show (0 : ℤ) ≤ -d.M by omega) (show (-d.M : ℤ) < 2 ^ 63 by omega)
            (show (0 : ℤ) ≤ -d.W by omega) (show (-d.W : ℤ) < 2 ^ 63 by omega)
            (show (0 : ℤ) ≤ -d.D by omega) (show (-d.D : ℤ) < 2 ^ 63 by omega)
            (show (0 : ℤ) ≤ -d.TH by omega) (show (-d.TH : ℤ) < 2 ^ 63 by omega)
            (show (0 : ℤ) ≤ -d.TM by omega) (show (-d.TM : ℤ) < 2 ^ 63 by omega)
            (show (0 : ℚ) ≤ -d.TS by linarith [hTS'.1.2]) hrangeN
            (fun hh => (hh htsN).elim) (fun hh => (hh htsN).elim)
        · have hposN : 0 < -d.TS := by
            rcases lt_or_eq_of_le hTS'.1.2 with hlt | heq
            · linarith
            · exact absurd heq hts
          have h21N : -d.TS < (1000000000000000000000 : ℚ) := by
            have := hg.1
            linarith
          have hlowN : (-d.TS).den = 1 ∨ mkRat 1 10000 ≤ -d.TS := by
            rcases hg.2.2 with h1 | h1 | h1
            · exact Or.inl (by rw [Rat.neg_den]; exact h1)
            · exact Or.inr (by linarith)
            · exfalso
              have hmk : (0 : ℚ) < mkRat 1 10000 := by decide
              linarith [hTS'.1.2]
          have hdvdN : ∃ L, ((-d.TS).den : ℕ) ∣ 10 ^ L := by
            obtain ⟨L, hL⟩ := hTS'.2
            exact ⟨L, by rwa [Rat.neg_den]⟩
          obtain ⟨ip, fp, hne, hipd, hfpd, hform, hval⟩ :=
            formatSeconds_shape (-d.TS) hposN h21N hlowN hdvdN
          exact parse_renderDur_pos d.Negate ip fp
            (show (0 : ℤ) ≤ -d.Y by omega) (show (-d.Y : ℤ) < 2 ^ 63 by omega)
            (show (0 : ℤ) ≤ -d.M by omega) (show (-d.M : ℤ) < 2 ^ 63 by omega)
            (show (0 : ℤ) ≤ -d.W by omega) (show (-d.W : ℤ) < 2 ^ 63 by omega)
            (show (0 : ℤ) ≤ -d.D by omega) (show (-d.D : ℤ) < 2 ^ 63 by omega)
            (show (0 : ℤ) ≤ -d.TH by omega) (show (-d.TH : ℤ) < 2 ^ 63 by omega)
            (show (0 : ℤ) ≤ -d.TM by omega) (show (-d.TM : ℤ) < 2 ^ 63 by omega)
            (show (0 : ℚ) ≤ -d.TS by linarith) hrangeN
            (fun _ => ⟨hne, hipd, hfpd, hform⟩) (fun _ => hval)
      have hnegN : d.Negate.IsNegative = false :=
        isNegative_false_of_nonneg
          (show (0 : ℤ) ≤ -d.Y by omega) (show (0 : ℤ) ≤ -d.M by omega)
          (show (0 : ℤ) ≤ -d.W by omega) (show (0 : ℤ) ≤ -d.D by omega)
          (show (0 : ℤ) ≤ -d.TH by omega) (show (0 : ℤ) ≤ -d.TM by omega)
          (show (0 : ℚ) ≤ -d.TS by linarith [hTS'.1.2])
      have hhead : (renderDur d.Negate).head? ≠ some '-' := by
        rw [renderDur_pos_eq hnegN]
        simp
      have hfin := parse_neg hhead hcore
      rw [negate_negate] at hfin
      rw [hrd]
      exact hfin

/-- Counterexample to claim C1 as stated: "PT0.00001S" parses successfully,
but `String` prints the seconds value 10^-5 as "1e-05" (Go `%g` switches to
scientific notation below 10^-4), and the re-parse rejects that, so the
round-trip is not value-equal for all accepted inputs. -/
theorem C1_counterexample :
    (ParseISO8601 "PT0.00001S".toList).2 = none ∧
      ParseISO8601 (durString (ParseISO8601 "PT0.00001S".toList).1) =
        (Duration.zero, some ParseErr.badFormat) := by
  constructor
  · decide
  · decide

theorem C1_parse_format_roundtrip_witness :
    ParseISO8601 (durString { Duration.zero with TS := mkRat 3 2 }) =
      ({ Duration.zero with TS := mkRat 3 2 }, none) :=
  C1_parse_format_roundtrip "PT1.5S".toList { Duration.zero with TS := mkRat 3 2 }
    (by decide) (by unfold goodTS; decide)

/-- Claim C6: a leading minus negates every parsed component: for any
grammar-accepted input `s` not itself starting with a minus, parsing
`"-" ++ s` succeeds and yields the component-wise negation of the parse of
`s`; and the concrete negative literal "-P1Y2M3DT4H5M6S" round-trips
through parse and `String` exactly. -/
theorem C6_leading_sign :
    (∀ (s : List Char) (d : Duration), s.head? ≠ some '-' →
        ParseISO8601 s = (d, none) → ParseISO8601 ('-' :: s) = (d.Negate, none)) ∧
      durString (ParseISO8601 "-P1Y2M3DT4H5M6S".toList).1 =
        "-P1Y2M3DT4H5M6S".toList := by
  constructor
  · exact fun s d hh hp => parse_neg hh hp
  · decide

theorem C6_leading_sign_witness :
    ParseISO8601 ('-' :: "P1D".toList) =
      ((⟨0, 0, 0, 1, 0, 0, 0⟩ : Duration).Negate, none) :=
  C6_leading_sign.1 "P1D".toList ⟨0, 0, 0, 1, 0, 0, 0⟩ (by decide) (by decide)

theorem C5_bridge_roundtrip_witness :
    FromTimeDuration (Duration.ToTimeDuration ⟨0, 0, 0, 0, 1, 30, 45⟩) =
      (⟨0, 0, 0, 0, 1, 30, 45⟩ : Duration) :=
  C5_bridge_roundtrip ⟨0, 0, 0, 0, 1, 30, 45⟩ (by decide) (by decide) (by decide)
    (by decide) (by decide) (by decide) (by decide) (by decide) (by decide)


end Iso8601
